import Mathlib

/-!
Shallow embedding of the RTK visualization core
(`rtk/rtk-visualization.umd.js`): CSV record parser, component-keyword
resolver, graph builder, and tree transformer, together with proofs of the
specification's claims about them.

Modelling conventions:
* JavaScript strings are `String`; `undefined`-able values are `Option`.
* JavaScript `Map` objects (insertion-ordered, `set` overwrites in place)
  are association lists with explicit `mapSet` / `mapGet` / `mapValues`.
* JavaScript `Set` objects are insertion-ordered lists with guarded append.
* Thrown exceptions become `Except`; code paths the claims never exercise
  (network fetching, rendering, `Date` timestamps, `console.warn`) are not
  modelled, and `String.prototype.localeCompare` is modelled as code-point
  comparison.
-/

/-- The characters the node-id sanitizer keeps: `[a-zA-Z0-9一-龯]`
(from the regex in `generateNodeId`). -/
def isAllowedIdChar (c : Char) : Bool :=
  (97 ≤ c.val && c.val ≤ 122) || (65 ≤ c.val && c.val ≤ 90) ||
  (48 ≤ c.val && c.val ≤ 57) || (0x4e00 ≤ c.val && c.val ≤ 0x9faf)

/-- `identifier.replace(/[^a-zA-Z0-9一-龯]/g, '_')`. -/
def sanitizeIdentifier (s : String) : String :=
  ⟨s.data.map (fun c => if isAllowedIdChar c then c else '_')⟩

/-- `generateNodeId(type, identifier)` from the graph-builder module. -/
def generateNodeId (type : String) (identifier : String) : String :=
  type ++ "_" ++ sanitizeIdentifier identifier

/-- Does `pre` occur at the start of `l`? (helper for substring search). -/
def listHasPre : List Char → List Char → Bool
  | _, [] => true
  | [], _ :: _ => false
  | a :: as, b :: bs => a == b && listHasPre as bs

/-- Helper for `strIncludes`: search `sub` at every tail of `l`. -/
def strIncludesAux (sub : List Char) : List Char → Bool
  | [] => listHasPre [] sub
  | l@(_ :: rest) => listHasPre l sub || strIncludesAux sub rest

/-- JavaScript `s.includes(sub)` (contiguous substring test). -/
def strIncludes (s sub : String) : Bool :=
  strIncludesAux sub.data s.data

/-- JavaScript `s.trim()` (structural, on the character list). -/
def strTrim (s : String) : String :=
  ⟨((s.data.dropWhile Char.isWhitespace).reverse.dropWhile
      Char.isWhitespace).reverse⟩

/-- JavaScript `s.toLowerCase()` (ASCII case folding, structural). -/
def strToLower (s : String) : String :=
  ⟨s.data.map Char.toLower⟩

/-- Helper of `splitChar`: split a character list at a separator. -/
def splitCharAux (sep : Char) : List Char → List Char → List String
  | [], acc => [⟨acc.reverse⟩]
  | c :: rest, acc =>
    if c = sep then ⟨acc.reverse⟩ :: splitCharAux sep rest []
    else splitCharAux sep rest (c :: acc)

/-- JavaScript `s.split(sep)` for a one-character separator. -/
def splitChar (sep : Char) (s : String) : List String :=
  splitCharAux sep s.data []

/-- JavaScript `s.endsWith(suf)` (structural). -/
def strEndsWith (s suf : String) : Bool :=
  listHasPre s.data.reverse suf.data.reverse

/-- Drop the last `n` characters of a string (structural). -/
def strDropRight (s : String) (n : Nat) : String :=
  ⟨s.data.take (s.data.length - n)⟩

/-- Character comparison by code point. -/
def cmpChar (c d : Char) : Ordering :=
  if c.val < d.val then .lt else if c.val = d.val then .eq else .gt

/-- Lexicographic code-point comparison of character lists. -/
def cmpCharList : List Char → List Char → Ordering
  | [], [] => .eq
  | [], _ :: _ => .lt
  | _ :: _, [] => .gt
  | a :: as, b :: bs =>
    match cmpChar a b with
    | .eq => cmpCharList as bs
    | o => o

/-- JavaScript `a || b` on an optional integer and a fallback
(`0`, like `undefined`, is falsy and falls through to `b`). -/
def jsOrInt : Option Int → Option Int → Option Int
  | some n, b => if n = 0 then b else some n
  | none, b => b

/-- JavaScript `a || b` where `a` is an optional string and `b` a string
(the empty string is falsy). -/
def jsOrStr : Option String → String → String
  | some s, b => if s = "" then b else s
  | none, b => b

/-- JavaScript `a || b` on two strings (empty string is falsy). -/
def jsOrStr2 (a b : String) : String :=
  if a = "" then b else a

/-! ### Record parser (`parser` module) -/

/-- A parsed kanji CSV row (`KanjiData`). -/
structure KanjiData where
  kanji : String
  id5th : Option Int
  id6th : Option Int
  keyword5th : String
  keyword6th : String
  components : String
  onReading : String
  kunReading : String
deriving DecidableEq, Repr

/-- A parsed primitives CSV row (`PrimitiveData`). -/
structure PrimitiveData where
  oldPath : String
  parentFrame : Option Int
  unicode : Option String
  nextFrame : Option Int
  realHeisig : Option Bool
deriving DecidableEq, Repr

/-- `RTKParseError` (the message text is not modelled verbatim; the carried
1-based line number is). -/
structure RTKParseError where
  message : String
  lineNumber : Option Nat
deriving DecidableEq, Repr

deriving instance DecidableEq for Except

/-- Character-level loop of `parseCSVLine`: state is the unread input, the
`inQuotes` flag and the current field (reversed order is not used; the field
is kept in order). -/
def parseCSVLineAux : List Char → Bool → List Char → List String
  | [], _, cur => [strTrim ⟨cur⟩]
  | '"' :: '"' :: rest2, true, cur => parseCSVLineAux rest2 true (cur ++ ['"'])
  | '"' :: rest, true, cur => parseCSVLineAux rest false cur
  | '"' :: rest, false, cur => parseCSVLineAux rest true cur
  | ',' :: rest, true, cur => parseCSVLineAux rest true (cur ++ [','])
  | ',' :: rest, false, cur => strTrim ⟨cur⟩ :: parseCSVLineAux rest false []
  | c :: rest, inQuotes, cur => parseCSVLineAux rest inQuotes (cur ++ [c])

/-- `parseCSVLine(line)`: split on unquoted commas, with `""` as an escaped
quote inside a quoted segment; each field is trimmed. -/
def parseCSVLine (line : String) : List String :=
  parseCSVLineAux line.data false []

/-- `parseOptionalNumber(value)`: blank/`NULL`/`null` are unset; otherwise
JavaScript `parseInt(trimmed, 10)` (optional sign, then leading decimal
digits; trailing garbage ignored; no digits means unset). -/
def parseLeadingDigits (l : List Char) : Option Nat :=
  let ds := l.takeWhile Char.isDigit
  if ds.isEmpty then none
  else some (ds.foldl (fun a c => a * 10 + (c.toNat - 48)) 0)

/-- JavaScript `parseInt(s, 10)` on an already-trimmed string, as an
`Option Int` (`none` for NaN). -/
def parseIntJS (s : String) : Option Int :=
  match s.data with
  | '-' :: rest => (parseLeadingDigits rest).map (fun n => -(n : Int))
  | '+' :: rest => (parseLeadingDigits rest).map (fun n => (n : Int))
  | l => (parseLeadingDigits l).map (fun n => (n : Int))

/-- `parseOptionalNumber(value)`. -/
def parseOptionalNumber (value : String) : Option Int :=
  let trimmed := strTrim value
  if trimmed = "" || trimmed = "NULL" || trimmed = "null" then none
  else parseIntJS trimmed

/-- `parseBoolean(value)` (truthy vocabulary `true`/`1`/`yes`). -/
def parseBoolean (value : String) : Bool :=
  let t := strToLower (strTrim value)
  t = "true" || t = "1" || t = "yes"

/-- Pad a field list with empty strings up to 8 entries
(the `while (fields.length < 8) fields.push('')` loop of `parseKanjiCSV`). -/
def padFields (fs : List String) : List String :=
  fs ++ List.replicate (8 - fs.length) ""

/-- Build the `KanjiData` record of one row from its (padded) fields. -/
def mkKanjiData (fields : List String) : KanjiData :=
  { kanji := strTrim (fields.getD 0 "")
    id5th := parseOptionalNumber (fields.getD 1 "")
    id6th := parseOptionalNumber (fields.getD 2 "")
    keyword5th := strTrim (fields.getD 3 "")
    keyword6th := strTrim (fields.getD 4 "")
    components := strTrim (fields.getD 5 "")
    onReading := strTrim (fields.getD 6 "")
    kunReading := strTrim (fields.getD 7 "") }

/-- `validateKanjiData(data, lineNumber)`: reject when the character is
empty or both alternate keywords are empty. -/
def validateKanjiData (d : KanjiData) (lineNumber : Nat) :
    Except RTKParseError Unit :=
  if strTrim d.kanji = "" then
    .error ⟨"Missing kanji character", some lineNumber⟩
  else if strTrim d.keyword5th = "" && strTrim d.keyword6th = "" then
    .error ⟨"Missing keywords", some lineNumber⟩
  else .ok ()

/-- The per-row loop of `parseKanjiCSV`, starting at 1-based line number
`lineNumber` for the first remaining line. -/
def parseKanjiRows : List String → Nat → Except RTKParseError (List KanjiData)
  | [], _ => .ok []
  | line :: rest, lineNumber =>
    let d := mkKanjiData (padFields (parseCSVLine line))
    match validateKanjiData d lineNumber with
    | .error e => .error e
    | .ok _ =>
      match parseKanjiRows rest (lineNumber + 1) with
      | .error e => .error e
      | .ok tail => .ok (d :: tail)

/-- The line splitting shared by both CSV parsers: split on newline, trim,
drop blank lines. -/
def csvLines (csvText : String) : List String :=
  ((splitChar '\n' csvText).map strTrim).filter (fun l => l.length > 0)

/-- 0 or 1: is the first line a heuristically detected header? -/
def headerStart (lines : List String) (key : String) : Nat :=
  if strIncludes (strToLower (lines.getD 0 "")) key then 1 else 0

/-- `parseKanjiCSV(csvText)` (body). -/
def parseKanjiCSV (csvText : String) : Except RTKParseError (List KanjiData) :=
  let lines := csvLines csvText
  if lines.length = 0 then .error ⟨"CSV file is empty", none⟩
  else
    let startIndex := headerStart lines "kanji"
    parseKanjiRows (lines.drop startIndex) (startIndex + 1)

/-- `validatePrimitiveData`: reject when the asset path is empty. -/
def validatePrimitiveData (d : PrimitiveData) (lineNumber : Nat) :
    Except RTKParseError Unit :=
  if strTrim d.oldPath = "" then .error ⟨"Missing oldPath", some lineNumber⟩
  else .ok ()

/-- Build the `PrimitiveData` record of one row (absent trailing fields stay
unset; they are not zero-padded). -/
def mkPrimitiveData (fields : List String) : PrimitiveData :=
  { oldPath := strTrim (fields.getD 0 "")
    parentFrame := if fields.length > 1 then parseOptionalNumber (fields.getD 1 "") else none
    unicode :=
      if fields.length > 2 && strTrim (fields.getD 2 "") ≠ "" then some (strTrim (fields.getD 2 ""))
      else none
    nextFrame := if fields.length > 3 then parseOptionalNumber (fields.getD 3 "") else none
    realHeisig :=
      if fields.length > 4 && strTrim (fields.getD 4 "") ≠ "" then some (parseBoolean (fields.getD 4 ""))
      else none }

/-- The per-row loop of `parsePrimitivesCSV`. -/
def parsePrimitiveRows : List String → Nat → Except RTKParseError (List PrimitiveData)
  | [], _ => .ok []
  | line :: rest, lineNumber =>
    let d := mkPrimitiveData (parseCSVLine line)
    match validatePrimitiveData d lineNumber with
    | .error e => .error e
    | .ok _ =>
      match parsePrimitiveRows rest (lineNumber + 1) with
      | .error e => .error e
      | .ok tail => .ok (d :: tail)

/-- `parsePrimitivesCSV(csvText)`. -/
def parsePrimitivesCSV (csvText : String) :
    Except RTKParseError (List PrimitiveData) :=
  let lines := csvLines csvText
  if lines.length = 0 then .error ⟨"CSV file is empty", none⟩
  else
    let startIndex := headerStart lines "old_path"
    parsePrimitiveRows (lines.drop startIndex) (startIndex + 1)

/-! ### Component resolver (`componentMappings` module) -/

/-- `COMPLEX_KANJI_EXCLUSIONS` (keys only; the values are documentation). -/
def COMPLEX_KANJI_EXCLUSIONS : List String := ["肘"]

/-- `PREFER_KANJI_KEYWORDS`. -/
def PREFER_KANJI_KEYWORDS : List String :=
  ["one", "two", "three", "four", "five", "six", "seven", "eight", "nine",
   "ten", "hundred", "thousand", "man", "large", "small", "up", "down",
   "left", "right"]

/-- `KEYWORD_TO_CHARACTER_MAPPINGS` (keyword → preferred character). -/
def KEYWORD_TO_CHARACTER_MAPPINGS : List (String × String) :=
  [("elbow", "厶"), ("top hat", "⺊"), ("animal legs", "ハ"),
   ("human legs", "儿"), ("drop", "丶"), ("needle", "十"), ("ice", "冫"),
   ("cliff", "厂"), ("tent", "⺊"), ("crown", "冖"), ("cave", "穴"),
   ("house", "宀"), ("walking stick", "丨"), ("bound up", "勹"),
   ("embrace", "勹"), ("horns", "丷"), ("wind", "几"), ("claw", "爪"),
   ("vulture", "爪"), ("mouth", "口"), ("eye", "目"), ("day", "日"),
   ("sun", "日"), ("month", "月"), ("moon", "月"), ("flesh", "月"),
   ("part of the body", "月"), ("person", "人"), ("water", "水"),
   ("water droplets", "氵"), ("water pistol", "氵"), ("fire", "火"),
   ("oven-fire", "灬"), ("barbecue", "灬"), ("soil", "土"), ("dirt", "土"),
   ("ground", "土"), ("tree", "木"), ("wood", "木"), ("hand", "手"),
   ("finger", "手"), ("fingers", "手"), ("heart", "心"),
   ("state of mind", "心"), ("thread", "糸"), ("spiderman", "糸"),
   ("say", "言"), ("words", "言"), ("keitai", "言"), ("car", "車"),
   ("metal", "金"), ("gold", "金"), ("horse", "馬"), ("fish", "魚"),
   ("bird", "鳥")]

/-- `resolveComponentKeyword(keyword)` restricted to OWN keys of the
mapping object. The source's `KEYWORD_TO_CHARACTER_MAPPINGS[keyword]` is a
plain-object property read that also surfaces the inherited
`Object.prototype` members; that full read is `resolveComponentKeywordJS`
below, which agrees with this lookup away from the inherited names. -/
def resolveComponentKeyword (keyword : String) : Option String :=
  (KEYWORD_TO_CHARACTER_MAPPINGS.find? (fun p => p.1 = keyword)).map Prod.snd

/-- `isComplexKanjiExcluded(kanji)` restricted to OWN keys. The source's
`kanji in COMPLEX_KANJI_EXCLUSIONS` is the JS `in` operator, which walks
the prototype chain and is also true for the inherited `Object.prototype`
names; that behaviour is `isComplexKanjiExcludedJS` below. -/
def isComplexKanjiExcluded (kanji : String) : Bool :=
  COMPLEX_KANJI_EXCLUSIONS.contains kanji

/-- `shouldPreferKanji(keyword)`. -/
def shouldPreferKanji (keyword : String) : Bool :=
  PREFER_KANJI_KEYWORDS.contains keyword

/-! ### Graph builder (`graphBuilder` module) -/

/-- The five JLPT level tags. -/
inductive JLPTLevel where
  | N5 | N4 | N3 | N2 | N1
deriving DecidableEq, Repr

/-- Node kind tag (`type` field of a graph node). -/
inductive NodeKind where
  | kanji | primitive
deriving DecidableEq, Repr

/-- A graph node (the duck-typed node object; absent fields are `none`). -/
structure GraphNode where
  id : String
  type : NodeKind
  character : String
  keyword : String
  rtkId : Option Int
  onReading : Option String
  kunReading : Option String
  jlptLevel : Option JLPTLevel
  unicode : Option String
  svgPath : Option String
deriving DecidableEq, Repr

/-- Edge kind tag. -/
inductive EdgeKind where
  | mnemonic_uses | used_in_mnemonic
deriving DecidableEq, Repr

/-- A directed graph edge. -/
structure GraphEdge where
  source : String
  target : String
  type : EdgeKind
deriving DecidableEq, Repr

/-- A JavaScript `Map` from ids to nodes: an association list in insertion
order, where `set` on an existing key overwrites in place. -/
abbrev NodeMap := List (String × GraphNode)

/-- `Map.prototype.set`. -/
def mapSet (m : NodeMap) (k : String) (v : GraphNode) : NodeMap :=
  if m.any (fun p => p.1 = k) then
    m.map (fun p => if p.1 = k then (k, v) else p)
  else m ++ [(k, v)]

/-- `Map.prototype.get`. -/
def mapGet (m : NodeMap) (k : String) : Option GraphNode :=
  (m.find? (fun p => p.1 = k)).map Prod.snd

/-- `Map.prototype.values()` in insertion order. -/
def mapValues (m : NodeMap) : List GraphNode :=
  m.map Prod.snd

/-- `Set.prototype.add` on an insertion-ordered string set. -/
def setAdd (s : List String) (x : String) : List String :=
  if s.contains x then s else s ++ [x]

/-- `parseComponents(componentsField)`: split the mnemonic field on `;`,
trim, drop empties. -/
def parseComponents (componentsField : String) : List String :=
  if strTrim componentsField = "" then []
  else ((splitChar ';' componentsField).map strTrim).filter
    (fun c => c.length > 0)

/-- `createKanjiNode(kanji, jlptMapping)`. -/
def createKanjiNode (kanji : KanjiData) (jlptMapping : String → Option JLPTLevel) :
    GraphNode :=
  { id := generateNodeId "kanji" kanji.kanji
    type := .kanji
    character := kanji.kanji
    keyword := jsOrStr2 kanji.keyword6th kanji.keyword5th
    rtkId := jsOrInt kanji.id6th kanji.id5th
    onReading := if kanji.onReading = "" then none else some kanji.onReading
    kunReading := if kanji.kunReading = "" then none else some kanji.kunReading
    jlptLevel := jlptMapping kanji.kanji
    unicode := none
    svgPath := none }

/-- Strip a trailing image extension (`/\.(svg|png|jpg|jpeg)$/i`). -/
def stripImageExt (s : String) : String :=
  let low := strToLower s
  if strEndsWith low ".svg" || strEndsWith low ".png" || strEndsWith low ".jpg" then
    strDropRight s 4
  else if strEndsWith low ".jpeg" then strDropRight s 5
  else s

/-- Strip the numeric/edition filename lead-in: the regex
`p` + digits + optional (`.` + digits) + `-` anchored at the start. -/
def stripFramePre (name : String) : String :=
  match name.data with
  | 'p' :: rest =>
    let ds := rest.takeWhile Char.isDigit
    if ds.isEmpty then name
    else
      match rest.dropWhile Char.isDigit with
      | '-' :: tail => String.mk tail
      | '.' :: rest3 =>
        let ds2 := rest3.takeWhile Char.isDigit
        if ds2.isEmpty then name
        else
          match rest3.dropWhile Char.isDigit with
          | '-' :: tail => String.mk tail
          | _ => name
      | _ => name
  | _ => name

/-- `createPrimitiveNode(primitive)`. -/
def createPrimitiveNode (primitive : PrimitiveData) : GraphNode :=
  let pathParts := splitChar '/' primitive.oldPath
  let filename := pathParts.getLastD ""
  let name := stripImageExt filename
  let cleanKeyword := stripFramePre name
  { id := generateNodeId "primitive" name
    type := .primitive
    character := jsOrStr primitive.unicode cleanKeyword
    keyword := cleanKeyword
    rtkId := jsOrInt primitive.parentFrame primitive.nextFrame
    onReading := none
    kunReading := none
    jlptLevel := none
    unicode := primitive.unicode
    svgPath := some primitive.oldPath }

/-- Steps 2-3 of the keyword resolution of `createMnemonicEdges`: the
preference-ordered keyword scan, then the exact character-id fallback
(this variant checks exclusion against the own keys only; the
prototype-faithful variant is `genericKeywordSearchJS` below). -/
def genericKeywordSearch (kanjiNodes primitiveNodes : NodeMap)
    (keyword : String) : Option GraphNode :=
  let byKanjiKw := (mapValues kanjiNodes).find?
    (fun n => n.keyword = keyword && !isComplexKanjiExcluded n.character)
  let byPrimKw := (mapValues primitiveNodes).find?
    (fun n => n.keyword = keyword)
  let searched := if shouldPreferKanji keyword then
      match byKanjiKw with
      | some n => some n
      | none => byPrimKw
    else
      match byPrimKw with
      | some n => some n
      | none => byKanjiKw
  match searched with
  | some n => some n
  | none =>
    match mapGet kanjiNodes (generateNodeId "kanji" keyword) with
    | some n =>
      if isComplexKanjiExcluded keyword then
        mapGet primitiveNodes (generateNodeId "primitive" keyword)
      else some n
    | none => mapGet primitiveNodes (generateNodeId "primitive" keyword)

/-- The keyword-to-node resolution of `createMnemonicEdges`: override map
first (mapped character looked up among kanji then primitives), otherwise
the generic search. This total function models the source away from the
inherited `Object.prototype` names; the fully faithful, possibly-throwing
resolution is `resolveMnemonicKeywordE` below, proved to agree with this
one away from those names. -/
def resolveMnemonicKeyword (kanjiNodes primitiveNodes : NodeMap)
    (keyword : String) : Option GraphNode :=
  let viaMap : Option GraphNode :=
    match resolveComponentKeyword keyword with
    | some mapped =>
      match mapGet kanjiNodes (generateNodeId "kanji" mapped) with
      | some n => some n
      | none => mapGet primitiveNodes (generateNodeId "primitive" mapped)
    | none => none
  match viaMap with
  | some n => some n
  | none => genericKeywordSearch kanjiNodes primitiveNodes keyword

/-- One keyword step of `createMnemonicEdges`'s inner loop. The accumulator
is `(edges, createdTargets, missingMnemonics)`. -/
def processKeyword (kanjiNodes primitiveNodes : NodeMap) (kanjiId : String)
    (acc : List GraphEdge × List String × List String) (keyword : String) :
    List GraphEdge × List String × List String :=
  let (edges, created, missing) := acc
  match resolveMnemonicKeyword kanjiNodes primitiveNodes keyword with
  | some n =>
    if created.contains n.id then (edges, created, missing)
    else
      (edges ++ [⟨kanjiId, n.id, .mnemonic_uses⟩, ⟨n.id, kanjiId, .used_in_mnemonic⟩],
       created ++ [n.id], missing)
  | none => (edges, created, setAdd missing keyword)

/-- One kanji-record step of `createMnemonicEdges`'s outer loop. The
accumulator is `(edges, missingMnemonics)`; `createdTargets` is fresh per
record. -/
def processKanjiRecord (kanjiNodes primitiveNodes : NodeMap)
    (acc : List GraphEdge × List String) (kanji : KanjiData) :
    List GraphEdge × List String :=
  let kanjiId := generateNodeId "kanji" kanji.kanji
  match mapGet kanjiNodes kanjiId with
  | none => acc
  | some _ =>
    let kws := parseComponents kanji.components
    let (edges, _, missing) :=
      kws.foldl (processKeyword kanjiNodes primitiveNodes kanjiId)
        (acc.1, [], acc.2)
    (edges, missing)

/-- `createMnemonicEdges(kanjiNodes, primitiveNodes, kanjiData)`, returning
the edge list and the missing-mnemonics set (insertion order). -/
def createMnemonicEdges (kanjiNodes primitiveNodes : NodeMap)
    (kanjiData : List KanjiData) : List GraphEdge × List String :=
  kanjiData.foldl (processKanjiRecord kanjiNodes primitiveNodes) ([], [])

/-- Graph build metadata (the impure `buildTimestamp` is not modelled). -/
structure GraphMetadata where
  totalKanji : Nat
  totalPrimitives : Nat
  totalEdges : Nat
deriving DecidableEq, Repr

/-- The built graph. -/
structure RTKGraph where
  nodes : List GraphNode
  edges : List GraphEdge
  metadata : GraphMetadata
deriving DecidableEq, Repr

/-- The kanji-node map built by `buildGraph`'s first loop. -/
def buildKanjiNodeMap (kanjiData : List KanjiData)
    (jlptMapping : String → Option JLPTLevel) : NodeMap :=
  kanjiData.foldl
    (fun m k => let node := createKanjiNode k jlptMapping; mapSet m node.id node) []

/-- The primitive-node map built by `buildGraph`'s second loop. -/
def buildPrimitiveNodeMap (primitivesData : List PrimitiveData) : NodeMap :=
  primitivesData.foldl
    (fun m p => let node := createPrimitiveNode p; mapSet m node.id node) []

/-- `buildGraph(kanjiData, primitivesData, jlptMapping)`. The null-input
throw cannot arise (lists are never null); the missing-mnemonics set is
only logged by the source (`console.warn`) and is likewise dropped here. -/
def buildGraph (kanjiData : List KanjiData) (primitivesData : List PrimitiveData)
    (jlptMapping : String → Option JLPTLevel) : RTKGraph :=
  let kanjiNodes := buildKanjiNodeMap kanjiData jlptMapping
  let primitiveNodes := buildPrimitiveNodeMap primitivesData
  let (edges, _missingMnemonics) :=
    createMnemonicEdges kanjiNodes primitiveNodes kanjiData
  { nodes := mapValues kanjiNodes ++ mapValues primitiveNodes
    edges := edges
    metadata :=
      { totalKanji := kanjiNodes.length
        totalPrimitives := primitiveNodes.length
        totalEdges := edges.length } }

/-- The duplicate-id scan of `buildValidatedGraph` (`(seen, duplicates)`). -/
def duplicateScan (nodes : List GraphNode) : List String :=
  (nodes.foldl
    (fun (acc : List String × List String) n =>
      if acc.1.contains n.id then (acc.1, acc.2 ++ [n.id])
      else (acc.1 ++ [n.id], acc.2))
    ([], [])).2

/-- `n.character || n.keyword || ''` used when collecting available names. -/
def nodeAvailableName (n : GraphNode) : String :=
  jsOrStr2 n.character (jsOrStr2 n.keyword "")

/-- Validation extras of `buildValidatedGraph`. -/
structure GraphValidation where
  missingComponents : List String
  duplicateNodes : List String
deriving DecidableEq, Repr

/-- The graph together with `buildValidatedGraph`'s validation extras. -/
structure ValidatedGraph where
  graph : RTKGraph
  validation : GraphValidation
deriving DecidableEq, Repr

/-- `buildValidatedGraph(kanjiData, primitivesData, jlptMapping)`. -/
def buildValidatedGraph (kanjiData : List KanjiData)
    (primitivesData : List PrimitiveData)
    (jlptMapping : String → Option JLPTLevel) : ValidatedGraph :=
  let graph := buildGraph kanjiData primitivesData jlptMapping
  let duplicateNodes := duplicateScan graph.nodes
  let availableNodes := graph.nodes.map nodeAvailableName
  let allComponentNames := kanjiData.foldl
    (fun s k => (parseComponents k.components).foldl setAdd s) []
  let missingComponents := allComponentNames.filter
    (fun comp => !availableNodes.contains comp)
  { graph := graph
    validation :=
      { missingComponents := missingComponents
        duplicateNodes := duplicateNodes } }

/-! ### Prototype-faithful resolution and the thrown error path

`KEYWORD_TO_CHARACTER_MAPPINGS` and `COMPLEX_KANJI_EXCLUSIONS` are plain
object literals, so property reads and the `in` operator consult
`Object.prototype`. A mnemonic token equal to an inherited member name
("constructor", "toString", "__proto__", …) makes
`KEYWORD_TO_CHARACTER_MAPPINGS[keyword]` return a truthy non-string;
`if (mappedCharacter)` then passes and `generateNodeId` calls `.replace`
on it, throwing a TypeError that `buildGraph`'s catch rethrows as an
`RTKDataError` carrying the record counts. The definitions below model
that path with an `Except`-valued pipeline. -/

/-- The own property names of `Object.prototype` (all of which evaluate to
truthy non-strings when read off a plain object). -/
def objectProtoMemberNames : List String :=
  ["constructor", "hasOwnProperty", "isPrototypeOf", "propertyIsEnumerable",
   "toLocaleString", "toString", "valueOf", "__defineGetter__",
   "__defineSetter__", "__lookupGetter__", "__lookupSetter__", "__proto__"]

/-- The possible results of the JS property read
`KEYWORD_TO_CHARACTER_MAPPINGS[keyword]`: an own string value, a truthy
non-string inherited from `Object.prototype`, or `undefined`. -/
inductive JSPropRead where
  | ownStr (s : String)
  | protoMember
  | notPresent
deriving DecidableEq, Repr

/-- The full JS property read behind `resolveComponentKeyword` (source
line 568), prototype chain included. -/
def resolveComponentKeywordJS (keyword : String) : JSPropRead :=
  match KEYWORD_TO_CHARACTER_MAPPINGS.find? (fun p => p.1 = keyword) with
  | some p => .ownStr p.2
  | none =>
    if objectProtoMemberNames.contains keyword then .protoMember else .notPresent

/-- The full JS `in` check behind `isComplexKanjiExcluded` (source line
577), prototype chain included. -/
def isComplexKanjiExcludedJS (kanji : String) : Bool :=
  COMPLEX_KANJI_EXCLUSIONS.contains kanji ||
    objectProtoMemberNames.contains kanji

/-- Steps 2-3 of the keyword resolution with the prototype-faithful
exclusion check. -/
def genericKeywordSearchJS (kanjiNodes primitiveNodes : NodeMap)
    (keyword : String) : Option GraphNode :=
  let byKanjiKw := (mapValues kanjiNodes).find?
    (fun n => n.keyword = keyword && !isComplexKanjiExcludedJS n.character)
  let byPrimKw := (mapValues primitiveNodes).find?
    (fun n => n.keyword = keyword)
  let searched := if shouldPreferKanji keyword then
      match byKanjiKw with
      | some n => some n
      | none => byPrimKw
    else
      match byPrimKw with
      | some n => some n
      | none => byKanjiKw
  match searched with
  | some n => some n
  | none =>
    match mapGet kanjiNodes (generateNodeId "kanji" keyword) with
    | some n =>
      if isComplexKanjiExcludedJS keyword then
        mapGet primitiveNodes (generateNodeId "primitive" keyword)
      else some n
    | none => mapGet primitiveNodes (generateNodeId "primitive" keyword)

/-- The fully faithful keyword resolution: a token that reads an inherited
`Object.prototype` member makes `generateNodeId` throw (`.error ()`);
otherwise resolution proceeds as in the source. -/
def resolveMnemonicKeywordE (kanjiNodes primitiveNodes : NodeMap)
    (keyword : String) : Except Unit (Option GraphNode) :=
  match resolveComponentKeywordJS keyword with
  | .protoMember => .error ()
  | .ownStr mapped =>
    match mapGet kanjiNodes (generateNodeId "kanji" mapped) with
    | some n => .ok (some n)
    | none =>
      match mapGet primitiveNodes (generateNodeId "primitive" mapped) with
      | some n => .ok (some n)
      | none => .ok (genericKeywordSearchJS kanjiNodes primitiveNodes keyword)
  | .notPresent => .ok (genericKeywordSearchJS kanjiNodes primitiveNodes keyword)

/-- One keyword step of the faithful edge construction. -/
def processKeywordE (kanjiNodes primitiveNodes : NodeMap) (kanjiId : String)
    (acc : List GraphEdge × List String × List String) (keyword : String) :
    Except Unit (List GraphEdge × List String × List String) :=
  let (edges, created, missing) := acc
  match resolveMnemonicKeywordE kanjiNodes primitiveNodes keyword with
  | .error e => .error e
  | .ok (some n) =>
    if created.contains n.id then .ok (edges, created, missing)
    else
      .ok (edges ++ [⟨kanjiId, n.id, .mnemonic_uses⟩,
             ⟨n.id, kanjiId, .used_in_mnemonic⟩],
           created ++ [n.id], missing)
  | .ok none => .ok (edges, created, setAdd missing keyword)

/-- The keyword loop of the faithful edge construction (a thrown error
aborts the loop, as an exception would). -/
def foldKeywordsE (kanjiNodes primitiveNodes : NodeMap) (kanjiId : String) :
    List String → List GraphEdge × List String × List String →
    Except Unit (List GraphEdge × List String × List String)
  | [], acc => .ok acc
  | kw :: rest, acc =>
    match processKeywordE kanjiNodes primitiveNodes kanjiId acc kw with
    | .error e => .error e
    | .ok acc' => foldKeywordsE kanjiNodes primitiveNodes kanjiId rest acc'

/-- One kanji-record step of the faithful edge construction. -/
def processKanjiRecordE (kanjiNodes primitiveNodes : NodeMap)
    (acc : List GraphEdge × List String) (kanji : KanjiData) :
    Except Unit (List GraphEdge × List String) :=
  let kanjiId := generateNodeId "kanji" kanji.kanji
  match mapGet kanjiNodes kanjiId with
  | none => .ok acc
  | some _ =>
    match foldKeywordsE kanjiNodes primitiveNodes kanjiId
      (parseComponents kanji.components) (acc.1, [], acc.2) with
    | .error e => .error e
    | .ok (edges, _, missing) => .ok (edges, missing)

/-- The record loop of the faithful edge construction. -/
def foldKanjiRecordsE (kanjiNodes primitiveNodes : NodeMap) :
    List KanjiData → List GraphEdge × List String →
    Except Unit (List GraphEdge × List String)
  | [], acc => .ok acc
  | k :: rest, acc =>
    match processKanjiRecordE kanjiNodes primitiveNodes acc k with
    | .error e => .error e
    | .ok acc' => foldKanjiRecordsE kanjiNodes primitiveNodes rest acc'

/-- `createMnemonicEdges` with the thrown error path modelled. -/
def createMnemonicEdgesE (kanjiNodes primitiveNodes : NodeMap)
    (kanjiData : List KanjiData) :
    Except Unit (List GraphEdge × List String) :=
  foldKanjiRecordsE kanjiNodes primitiveNodes kanjiData ([], [])

/-- `RTKDataError`: the context counts `buildGraph`'s catch attaches when
rethrowing. -/
structure RTKDataError where
  kanjiCount : Nat
  primitivesCount : Nat
deriving DecidableEq, Repr

/-- `buildGraph` with the thrown error path modelled: an exception inside
edge construction is caught and rethrown as an `RTKDataError` carrying the
input record counts. -/
def buildGraphE (kanjiData : List KanjiData)
    (primitivesData : List PrimitiveData)
    (jlptMapping : String → Option JLPTLevel) :
    Except RTKDataError RTKGraph :=
  let kanjiNodes := buildKanjiNodeMap kanjiData jlptMapping
  let primitiveNodes := buildPrimitiveNodeMap primitivesData
  match createMnemonicEdgesE kanjiNodes primitiveNodes kanjiData with
  | .error _ => .error ⟨kanjiData.length, primitivesData.length⟩
  | .ok (edges, _missingMnemonics) =>
    .ok { nodes := mapValues kanjiNodes ++ mapValues primitiveNodes
          edges := edges
          metadata :=
            { totalKanji := kanjiNodes.length
              totalPrimitives := primitiveNodes.length
              totalEdges := edges.length } }

/-! ### Tree transformer (`treeTransformer` module) -/

/-- `JLPT_ORDER` difficulty rank (N5 easiest = 1 … N1 hardest = 5). -/
def jlptOrder : JLPTLevel → Int
  | .N5 => 1
  | .N4 => 2
  | .N3 => 3
  | .N2 => 4
  | .N1 => 5

/-- Pagination metadata stored on a synthetic "+n more" placeholder
(`moreNodeMeta`). -/
structure MoreNodeMeta where
  parentNodeId : String
  totalReferers : Nat
  currentIndex : Nat
deriving DecidableEq, Repr

/-- A tree node. The JS object also holds a non-owning `parent` back
reference (used only for path reconstruction) which a purely functional
tree cannot hold and no claim consults; `referers` is `none` where the JS
object leaves the field `undefined`. -/
inductive TreeNode where
  | mk (id : String) (data : GraphNode) (depth : Int)
      (expanded : Bool) (referersExpanded : Bool)
      (children : List TreeNode) (referers : Option (List TreeNode))
      (moreNodeMeta : Option MoreNodeMeta)

/-- The `id` field of a tree node. -/
def TreeNode.id : TreeNode → String
  | .mk i _ _ _ _ _ _ _ => i

/-- The wrapped graph node of a tree node. -/
def TreeNode.data : TreeNode → GraphNode
  | .mk _ d _ _ _ _ _ _ => d

/-- The `depth` field of a tree node. -/
def TreeNode.depth : TreeNode → Int
  | .mk _ _ d _ _ _ _ _ => d

/-- The `expanded` flag of a tree node. -/
def TreeNode.expanded : TreeNode → Bool
  | .mk _ _ _ e _ _ _ _ => e

/-- The `referersExpanded` flag of a tree node. -/
def TreeNode.referersExpanded : TreeNode → Bool
  | .mk _ _ _ _ r _ _ _ => r

/-- The `children` list of a tree node. -/
def TreeNode.children : TreeNode → List TreeNode
  | .mk _ _ _ _ _ c _ _ => c

/-- The `referers` list of a tree node. -/
def TreeNode.referers : TreeNode → Option (List TreeNode)
  | .mk _ _ _ _ _ _ r _ => r

/-- The pagination metadata of a synthetic placeholder node. -/
def TreeNode.moreNodeMeta : TreeNode → Option MoreNodeMeta
  | .mk _ _ _ _ _ _ _ m => m

/-- Is this a synthetic "+n more" node (`id.includes("_more_referers")`)? -/
def isMoreNode (n : TreeNode) : Bool :=
  strIncludes n.id "_more_referers"

/-- `a.data.character || a.data.keyword || ""` (the lexical-comparison key
of `sortNodesByJLPTLevel`). -/
def sortCharKey (n : TreeNode) : String :=
  jsOrStr2 n.data.character (jsOrStr2 n.data.keyword "")

/-- Code-point string comparison standing in for
`String.prototype.localeCompare` (negative/zero/positive). -/
def compareStringsJS (a b : String) : Int :=
  match cmpCharList a.data b.data with
  | .lt => -1
  | .eq => 0
  | .gt => 1

/-- The comparator passed to `Array.prototype.sort` by
`sortNodesByJLPTLevel`. -/
def jlptComparator (a b : TreeNode) : Int :=
  match a.data.jlptLevel, b.data.jlptLevel with
  | some la, some lb => jlptOrder la - jlptOrder lb
  | some _, none => -1
  | none, some _ => 1
  | none, none => compareStringsJS (sortCharKey a) (sortCharKey b)

/-- Insert `x` into `l` after every element `y` with `le y x`: the
insertion step of a stable insertion sort. -/
def stableInsert {α : Type} (le : α → α → Bool) (x : α) : List α → List α
  | [] => [x]
  | y :: ys => if le y x then y :: stableInsert le x ys else x :: y :: ys

/-- Stable insertion sort. For the consistent comparator used here (a total
preorder) this is exactly the stable sort ES2019 specifies for
`Array.prototype.sort`. -/
def stableSort {α : Type} (le : α → α → Bool) (l : List α) : List α :=
  l.foldl (fun acc x => stableInsert le x acc) []

/-- `sortNodesByJLPTLevel(nodes)`: split off "+n more" placeholder nodes,
stably sort the rest by the comparator, and put the placeholders at the
end. -/
def sortNodesByJLPTLevel (nodes : List TreeNode) : List TreeNode :=
  let moreNodes := nodes.filter isMoreNode
  let regularNodes := nodes.filter (fun n => !isMoreNode n)
  let sortedRegular := stableSort (fun a b => jlptComparator a b ≤ 0) regularNodes
  sortedRegular ++ moreNodes

/-- All graph edges whose `source` is `nodeId`, in edge-list order (what
the transformer's `edgeMap` lookup returns). -/
def edgesFrom (g : RTKGraph) (nodeId : String) : List GraphEdge :=
  g.edges.filter (fun e => e.source = nodeId)

/-- The transformer's `nodeMap` lookup over `graph.nodes`. In the source
the map is built by insertion, so a later node with a duplicate id would
win; `buildGraph` never produces duplicate ids (proved below), and for
faithfulness we model `Map` construction: last set wins. -/
def graphNodeMapGet (g : RTKGraph) (nodeId : String) : Option GraphNode :=
  (g.nodes.foldl (fun m n => mapSet m n.id n) []).find?
    (fun p => p.1 = nodeId) |>.map Prod.snd

/-- Mutable state threaded through `buildKanjiComponentTree`'s recursion:
the path-scoped `visitedNodes` set, the `circularReferences` list, and the
identities (id, depth) of nodes pushed onto `allTreeNodes` (the JS array
stores the node objects themselves; their later-mutated `children` are
returned in the tree, while this projection records creation order). -/
structure BuildState where
  visited : List String
  circularReferences : List String
  allTreeNodes : List (String × Nat)
deriving DecidableEq, Repr

mutual

/-- `buildTreeNode(nodeId, depth, parent)` of `buildKanjiComponentTree`,
as a state-passing function (mutually recursive with its `for` loop over
the node's `mnemonic_uses` edges). -/
def buildTreeNode (g : RTKGraph) (maxDepth : Nat) (nodeId : String)
    (depth : Nat) (st : BuildState) : Option TreeNode × BuildState :=
  if _h : depth > maxDepth then (none, st)
  else if st.visited.contains nodeId then
    (none, { st with circularReferences := st.circularReferences ++ [nodeId] })
  else
    match graphNodeMapGet g nodeId with
    | none => (none, st)
    | some graphNode =>
      let st1 : BuildState :=
        { st with visited := st.visited ++ [nodeId]
                  allTreeNodes := st.allTreeNodes ++ [(nodeId, depth)] }
      let (children, st2) :=
        buildChildNodes g maxDepth (edgesFrom g nodeId) (depth + 1) st1
      let node : TreeNode :=
        .mk nodeId graphNode (depth : Int) (decide (depth < 2)) false
          (sortNodesByJLPTLevel children) none none
      (some node, { st2 with visited := st2.visited.erase nodeId })
termination_by (maxDepth + 1 - depth, 0)

/-- The `for (const edge of componentEdges)` loop of `buildTreeNode`,
collecting the recursively built children at depth `childDepth`. -/
def buildChildNodes (g : RTKGraph) (maxDepth : Nat) (edges : List GraphEdge)
    (childDepth : Nat) (st : BuildState) : List TreeNode × BuildState :=
  match edges with
  | [] => ([], st)
  | e :: rest =>
    if e.type = .mnemonic_uses then
      let (child, st1) := buildTreeNode g maxDepth e.target childDepth st
      let (siblings, st2) := buildChildNodes g maxDepth rest childDepth st1
      ((match child with | some c => [c] | none => []) ++ siblings, st2)
    else buildChildNodes g maxDepth rest childDepth st
termination_by (maxDepth + 1 - childDepth, edges.length + 1)

end

/-- The result of `buildKanjiComponentTree` (`sourceGraph` copies omitted;
`allNodes` records creation identities as in `BuildState`). -/
structure TreeBuildResult where
  root : TreeNode
  allNodes : List (String × Nat)
  totalNodes : Nat
  maxDepthReached : Nat
  circularReferences : List String

/-- `buildKanjiComponentTree(kanjiId, maxDepth = 5)`: errors (thrown in the
source) for an unknown root id, a non-kanji root, or a root build that
returns no node. -/
def buildKanjiComponentTree (g : RTKGraph) (kanjiId : String)
    (maxDepth : Nat := 5) : Except String TreeBuildResult :=
  match graphNodeMapGet g kanjiId with
  | none => .error "Kanji node not found"
  | some rootNode =>
    if rootNode.type ≠ .kanji then .error "Node is not a kanji node"
    else
      match buildTreeNode g maxDepth kanjiId 0 ⟨[], [], []⟩ with
      | (none, _) => .error "Failed to build tree"
      | (some root, st) =>
        .ok { root := root
              allNodes := st.allTreeNodes
              totalNodes := st.allTreeNodes.length
              maxDepthReached := (st.allTreeNodes.map Prod.snd).foldl max 0
              circularReferences := st.circularReferences }

/-- `findNodeReferers(nodeId)`: sources of all `mnemonic_uses` edges whose
target is `nodeId`, resolved through the node map (present nodes only). -/
def findNodeReferers (g : RTKGraph) (nodeId : String) : List GraphNode :=
  (g.edges.filter (fun e => e.type = .mnemonic_uses && e.target = nodeId)).filterMap
    (fun e => graphNodeMapGet g e.source)

/-- The leaf `TreeNode` that `buildReferersTree` makes for one referer. -/
def mkRefererTreeNode (n : GraphNode) : TreeNode :=
  .mk n.id n (-1) false false [] (some []) none

/-- The placeholder's wrapped pseudo graph node (`type: "primitive"`,
character `…`, keyword `+n more`). -/
def mkMoreGraphNode (placeholderId : String) (remainingCount : Nat) : GraphNode :=
  { id := placeholderId
    type := .primitive
    character := "…"
    keyword := "+" ++ toString remainingCount ++ " more"
    rtkId := none
    onReading := none
    kunReading := none
    jlptLevel := none
    unicode := none
    svgPath := none }

/-- The synthetic summary node appended by `buildReferersTree` when more
referers remain. -/
def mkSummaryNode (nodeId : String) (startIndex maxReferers total : Nat) : TreeNode :=
  let endIndex := startIndex + maxReferers
  let remainingCount := total - endIndex
  let placeholderId :=
    if startIndex = 0 then nodeId ++ "_more_referers"
    else nodeId ++ "_more_referers_" ++ toString endIndex
  .mk placeholderId (mkMoreGraphNode placeholderId remainingCount) (-1) false false
    [] (some []) (some ⟨nodeId, total, endIndex⟩)

/-- `buildReferersTree(nodeId, maxReferers = 10, startIndex = 0)`. -/
def buildReferersTree (g : RTKGraph) (nodeId : String)
    (maxReferers : Nat := 10) (startIndex : Nat := 0) : List TreeNode :=
  let refererGraphNodes := findNodeReferers g nodeId
  let endIndex := startIndex + maxReferers
  let limitedReferers := (refererGraphNodes.drop startIndex).take maxReferers
  let refererTreeNodes := limitedReferers.map mkRefererTreeNode
  let withSummary :=
    if refererGraphNodes.length > endIndex then
      refererTreeNodes ++
        [mkSummaryNode nodeId startIndex maxReferers refererGraphNodes.length]
    else refererTreeNodes
  sortNodesByJLPTLevel withSummary

/-! ### Shared fixtures for concrete scenarios -/

/-- A minimal kanji graph node used in concrete scenarios. -/
def sampleKanjiNode (c : String) : GraphNode :=
  { id := generateNodeId "kanji" c, type := .kanji, character := c, keyword := c,
    rtkId := none, onReading := none, kunReading := none, jlptLevel := none,
    unicode := none, svgPath := none }

/-- A minimal tree node wrapping `sampleKanjiNode c` with a chosen JLPT
level, used in sorting scenarios. -/
def sampleTreeNode (i c : String) (l : Option JLPTLevel) : TreeNode :=
  .mk i { sampleKanjiNode c with jlptLevel := l } 1 false false [] none none

/-- Shorthand for a `mnemonic_uses` edge. -/
def usesEdge (a b : String) : GraphEdge := ⟨a, b, .mnemonic_uses⟩

/-- Shorthand for a `used_in_mnemonic` edge. -/
def usedInEdge (a b : String) : GraphEdge := ⟨a, b, .used_in_mnemonic⟩

/-! ### Sorting lemmas -/

/-- Inserting with `stableInsert` is a permutation of consing. -/
theorem stableInsert_perm {α : Type} (le : α → α → Bool) (x : α)
    (l : List α) : List.Perm (stableInsert le x l) (x :: l) := by
  induction l with
  | nil => simp [stableInsert]
  | cons y ys ih =>
    by_cases h : le y x = true
    · simp only [stableInsert, h, if_true]
      exact (ih.cons y).trans (List.Perm.swap x y ys)
    · simp [stableInsert, h]

/-- The insertion-sort fold is a permutation of input-plus-accumulator. -/
theorem stableSort_foldl_perm {α : Type} (le : α → α → Bool) :
    ∀ (l acc : List α),
      List.Perm (l.foldl (fun acc x => stableInsert le x acc) acc) (l ++ acc)
  | [], acc => by simp
  | x :: l, acc => by
    refine (stableSort_foldl_perm le l (stableInsert le x acc)).trans ?_
    exact (List.Perm.append_left l (stableInsert_perm le x acc)).trans
      List.perm_middle

/-- `stableSort` permutes its input. -/
theorem stableSort_perm {α : Type} (le : α → α → Bool) (l : List α) :
    List.Perm (stableSort le l) l := by
  simpa using stableSort_foldl_perm le l []

/-- `sortNodesByJLPTLevel` permutes its input. -/
theorem sortNodesByJLPTLevel_perm (nodes : List TreeNode) :
    List.Perm (sortNodesByJLPTLevel nodes) nodes := by
  unfold sortNodesByJLPTLevel
  refine ((stableSort_perm _ _).append_right _).trans ?_
  have h := List.filter_append_perm (fun n => !isMoreNode n) nodes
  simpa using h

/-- `sortNodesByJLPTLevel` puts exactly the placeholder nodes, in input
order, after a placeholder-free segment. -/
theorem sortNodesByJLPTLevel_more_last (nodes : List TreeNode) :
    ∃ l, sortNodesByJLPTLevel nodes = l ++ nodes.filter isMoreNode ∧
      ∀ x ∈ l, isMoreNode x = false := by
  refine ⟨stableSort (fun a b => jlptComparator a b ≤ 0)
    (nodes.filter (fun n => !isMoreNode n)), rfl, ?_⟩
  intro x hx
  have hx' : x ∈ nodes.filter (fun n => !isMoreNode n) :=
    (stableSort_perm _ _).mem_iff.mp hx
  have := List.of_mem_filter hx'
  simpa using this

/-! ### Claim C3 — sibling ordering -/

/-- **C3, counterexample.** The claim's concrete example is wrong: on input
levels `[N3, N5, absent, N1]` the code sorts ascending by difficulty rank to
`[N5, N3, N1, absent]`, not the claimed `[N5, N1, N3, absent]`; and two
nodes with the same present level are NOT reordered lexically (input order
`b`, `a` is kept), refuting "ties broken by lexical order when neither
side lacks a level". -/
theorem claim_C3_counterexample :
    ((sortNodesByJLPTLevel
        [sampleTreeNode "x3" "w" (some .N3), sampleTreeNode "x5" "x" (some .N5),
         sampleTreeNode "xa" "y" none, sampleTreeNode "x1" "z" (some .N1)]).map
        (fun n => n.data.jlptLevel) ≠ [some .N5, some .N1, some .N3, none]) ∧
    ((sortNodesByJLPTLevel [sampleTreeNode "c1" "b" (some .N3),
        sampleTreeNode "c2" "a" (some .N3)]).map sortCharKey ≠ ["a", "b"]) := by
  constructor <;> decide

/-- **C3 (amended).** Sibling ordering is a stable sort by JLPT difficulty
rank ascending (N5 first), present levels before absent ones; the lexical
character/keyword tie-break applies only when BOTH sides lack a level —
two nodes with equal present levels keep their input order; placeholder
"+n more" nodes are forced to the end regardless of level; the output is a
permutation of the input; and for input levels [N3, N5, absent, N1] the
sorted order is [N5, N3, N1, absent]. -/
theorem claim_C3 :
    (∀ nodes, List.Perm (sortNodesByJLPTLevel nodes) nodes) ∧
    (∀ nodes, ∃ l, sortNodesByJLPTLevel nodes = l ++ nodes.filter isMoreNode ∧
      ∀ x ∈ l, isMoreNode x = false) ∧
    ((sortNodesByJLPTLevel
        [sampleTreeNode "x3" "w" (some .N3), sampleTreeNode "x5" "x" (some .N5),
         sampleTreeNode "xa" "y" none, sampleTreeNode "x1" "z" (some .N1)]).map
        (fun n => n.data.jlptLevel) = [some .N5, some .N3, some .N1, none]) ∧
    ((sortNodesByJLPTLevel [sampleTreeNode "n1" "b" (some .N3),
        sampleTreeNode "n2" "a" (some .N3)]).map TreeNode.id = ["n1", "n2"]) ∧
    ((sortNodesByJLPTLevel [sampleTreeNode "p1" "b" none,
        sampleTreeNode "p2" "a" none]).map TreeNode.id = ["p2", "p1"]) ∧
    ((sortNodesByJLPTLevel [sampleTreeNode "q1_more_referers" "a" (some .N5),
        sampleTreeNode "q2" "z" none]).map TreeNode.id =
      ["q2", "q1_more_referers"]) :=
  ⟨sortNodesByJLPTLevel_perm, sortNodesByJLPTLevel_more_last,
    by decide, by decide, by decide, by decide⟩

/-- **C3, witness**: the amended theorem applied at a concrete list. -/
theorem claim_C3_witness :
    List.Perm (sortNodesByJLPTLevel [sampleTreeNode "w1" "a" none])
      [sampleTreeNode "w1" "a" none] :=
  claim_C3.1 [sampleTreeNode "w1" "a" none]

/-! ### Claims C4 and C10 — paginated referer views -/

/-- A fixture graph: node `kanji_p0` has exactly 15 referers
`kanji_k01` … `kanji_k15`. -/
def refererFixtureGraph : RTKGraph :=
  let ids : List String :=
    ["k01", "k02", "k03", "k04", "k05", "k06", "k07", "k08",
     "k09", "k10", "k11", "k12", "k13", "k14", "k15"]
  { nodes := sampleKanjiNode "p0" :: ids.map sampleKanjiNode
    edges :=
      (ids.map (fun c => usesEdge (generateNodeId "kanji" c) "kanji_p0")) ++
      (ids.map (fun c => usedInEdge "kanji_p0" (generateNodeId "kanji" c)))
    metadata := ⟨16, 0, 30⟩ }

/-- `buildReferersTree` is a permutation of: the requested slice of
referers as leaf nodes, plus (iff referers remain past the slice) one
summary node. -/
theorem buildReferersTree_perm (g : RTKGraph) (nodeId : String)
    (ps off : Nat) :
    List.Perm (buildReferersTree g nodeId ps off)
      ((((findNodeReferers g nodeId).drop off).take ps).map mkRefererTreeNode ++
       (if (findNodeReferers g nodeId).length > off + ps then
          [mkSummaryNode nodeId off ps (findNodeReferers g nodeId).length]
        else [])) := by
  by_cases h : (findNodeReferers g nodeId).length > off + ps
  · simp only [buildReferersTree, if_pos h]
    exact sortNodesByJLPTLevel_perm _
  · simp only [buildReferersTree, if_neg h, List.append_nil]
    exact sortNodesByJLPTLevel_perm _

/-- Exactly one returned node carries pagination metadata when referers
remain past the slice, none otherwise. -/
theorem buildReferersTree_summary_count (g : RTKGraph) (nodeId : String)
    (ps off : Nat) :
    (buildReferersTree g nodeId ps off).countP
        (fun n => n.moreNodeMeta.isSome) =
      if (findNodeReferers g nodeId).length > off + ps then 1 else 0 := by
  rw [(buildReferersTree_perm g nodeId ps off).countP_eq]
  rw [List.countP_append]
  have hmap : ((((findNodeReferers g nodeId).drop off).take ps).map
      mkRefererTreeNode).countP (fun n => n.moreNodeMeta.isSome) = 0 := by
    rw [List.countP_eq_zero]
    intro n hn
    obtain ⟨r, _, rfl⟩ := List.mem_map.mp hn
    simp [mkRefererTreeNode, TreeNode.moreNodeMeta]
  rw [hmap]
  by_cases h : (findNodeReferers g nodeId).length > off + ps
  · simp [if_pos h, mkSummaryNode, TreeNode.moreNodeMeta, List.countP_cons]
  · simp [if_neg h]

/-- **C4.** `buildReferersTree(nodeId, pageSize, offset)` returns (as a
permutation — the result is then sibling-sorted) the slice
`[offset, offset+pageSize)` of the node's referers as leaf tree nodes of
depth −1 with no children, appends exactly one synthetic summary node iff
referers remain beyond the slice, the summary id is
`{nodeId}_more_referers` for offset 0 and
`{nodeId}_more_referers_{offset+pageSize}` otherwise, its metadata records
the owning node id, the total referer count and the next offset; on the
15-referer fixture, page (10, 0) yields 10 real nodes plus one summary with
total 15 / next offset 10, and page (5, 10) yields the remaining 5 with no
summary. -/
theorem claim_C4 :
    (∀ (g : RTKGraph) (nodeId : String) (ps off : Nat),
      List.Perm (buildReferersTree g nodeId ps off)
        ((((findNodeReferers g nodeId).drop off).take ps).map mkRefererTreeNode ++
         (if (findNodeReferers g nodeId).length > off + ps then
            [mkSummaryNode nodeId off ps (findNodeReferers g nodeId).length]
          else []))) ∧
    (∀ (g : RTKGraph) (nodeId : String) (ps off : Nat) (n : TreeNode),
      n ∈ buildReferersTree g nodeId ps off →
        n.depth = -1 ∧ n.children = []) ∧
    (∀ (g : RTKGraph) (nodeId : String) (ps off : Nat),
      (buildReferersTree g nodeId ps off).countP
          (fun n => n.moreNodeMeta.isSome) =
        if (findNodeReferers g nodeId).length > off + ps then 1 else 0) ∧
    (∀ (nodeId : String) (off ps total : Nat),
      (mkSummaryNode nodeId off ps total).id =
        (if off = 0 then nodeId ++ "_more_referers"
         else nodeId ++ "_more_referers_" ++ toString (off + ps)) ∧
      (mkSummaryNode nodeId off ps total).moreNodeMeta =
        some ⟨nodeId, total, off + ps⟩) ∧
    ((buildReferersTree refererFixtureGraph "kanji_p0" 10 0).map TreeNode.id =
      ["kanji_k01", "kanji_k02", "kanji_k03", "kanji_k04", "kanji_k05",
       "kanji_k06", "kanji_k07", "kanji_k08", "kanji_k09", "kanji_k10",
       "kanji_p0_more_referers"]) ∧
    ((buildReferersTree refererFixtureGraph "kanji_p0" 10 0).map
        TreeNode.moreNodeMeta =
      [none, none, none, none, none, none, none, none, none, none,
       some ⟨"kanji_p0", 15, 10⟩]) ∧
    ((buildReferersTree refererFixtureGraph "kanji_p0" 5 10).map TreeNode.id =
      ["kanji_k11", "kanji_k12", "kanji_k13", "kanji_k14", "kanji_k15"]) := by
  refine ⟨buildReferersTree_perm, ?_, buildReferersTree_summary_count,
    ?_, by decide, by decide, by decide⟩
  · intro g nodeId ps off n hn
    have hmem := (buildReferersTree_perm g nodeId ps off).mem_iff.mp hn
    rcases List.mem_append.mp hmem with h | h
    · obtain ⟨r, _, rfl⟩ := List.mem_map.mp h
      exact ⟨rfl, rfl⟩
    · by_cases hc : (findNodeReferers g nodeId).length > off + ps
      · rw [if_pos hc] at h
        rcases List.mem_singleton.mp h with rfl
        exact ⟨rfl, rfl⟩
      · rw [if_neg hc] at h
        cases h
  · intro nodeId off ps total
    constructor
    · by_cases h : off = 0 <;>
        simp [mkSummaryNode, TreeNode.id, h]
    · rfl

/-- **C4, witness**: the summary-count part of the theorem applied at the
concrete fixture. -/
theorem claim_C4_witness :
    (buildReferersTree refererFixtureGraph "kanji_p0" 10 0).countP
      (fun n => n.moreNodeMeta.isSome) = 1 := by
  rw [claim_C4.2.2.1 refererFixtureGraph "kanji_p0" 10 0]
  decide

/-- **C10.** Calling `buildReferersTree` with an offset at or beyond the
node's total referer count returns the empty list (no referer rows, no
placeholder) rather than failing; in general a placeholder is present iff
the total strictly exceeds offset plus page size. -/
theorem claim_C10 :
    (∀ (g : RTKGraph) (nodeId : String) (ps off : Nat),
      off ≥ (findNodeReferers g nodeId).length →
        buildReferersTree g nodeId ps off = []) ∧
    (∀ (g : RTKGraph) (nodeId : String) (ps off : Nat),
      (buildReferersTree g nodeId ps off).countP
          (fun n => n.moreNodeMeta.isSome) = 1 ↔
        (findNodeReferers g nodeId).length > off + ps) := by
  constructor
  · intro g nodeId ps off h
    have hdrop : (findNodeReferers g nodeId).drop off = [] :=
      List.drop_eq_nil_of_le h
    have hcond : ¬ (findNodeReferers g nodeId).length > off + ps := by omega
    simp [buildReferersTree, hdrop, hcond, sortNodesByJLPTLevel, stableSort]
  · intro g nodeId ps off
    rw [buildReferersTree_summary_count]
    by_cases h : (findNodeReferers g nodeId).length > off + ps
    · simp [h]
    · simp [h]

/-- **C10, witness**: on the 15-referer fixture, offset 20 returns the
empty list, and the placeholder-iff criterion holds at page (10, 0). -/
theorem claim_C10_witness :
    buildReferersTree refererFixtureGraph "kanji_p0" 10 20 = [] ∧
    ((buildReferersTree refererFixtureGraph "kanji_p0" 10 0).countP
        (fun n => n.moreNodeMeta.isSome) = 1 ↔
      (findNodeReferers refererFixtureGraph "kanji_p0").length > 0 + 10) :=
  ⟨claim_C10.1 refererFixtureGraph "kanji_p0" 10 20 (by decide),
   claim_C10.2 refererFixtureGraph "kanji_p0" 10 0⟩

/-! ### Claim C7 — override-map resolution -/

/-- Fixture: kanji 肘 whose 6th-edition keyword is "elbow". -/
def elbowKanjiRecord : KanjiData := ⟨"肘", none, some 1, "", "elbow", "", "", ""⟩

/-- Fixture: kanji 腕 whose mnemonic field references "elbow". -/
def armKanjiRecord : KanjiData := ⟨"腕", none, some 2, "", "arm", "elbow", "", ""⟩

/-- Fixture: the primitive asset `厶.svg`, producing node `primitive_厶`. -/
def elbowPrimitiveRecord : PrimitiveData := ⟨"厶.svg", none, none, none, none⟩

/-- **C7.** The explicit override map is consulted before any keyword
search: when it maps a keyword to a character and that character resolves
to a node (kanji nodes first, then primitive nodes), that node is the
match and the generic search is skipped. In particular
`resolveComponentKeyword "elbow" = 厶`, and on a graph containing both a
kanji whose keyword is "elbow" (肘) and the primitive 厶, a kanji whose
mnemonic says "elbow" is linked to the primitive node `primitive_厶`, not
to the keyword-matching kanji. -/
theorem claim_C7 :
    (∀ (kanjiNodes primitiveNodes : NodeMap) (kw ch : String) (n : GraphNode),
      resolveComponentKeyword kw = some ch →
      (match mapGet kanjiNodes (generateNodeId "kanji" ch) with
       | some m => some m
       | none => mapGet primitiveNodes (generateNodeId "primitive" ch)) = some n →
      resolveMnemonicKeyword kanjiNodes primitiveNodes kw = some n) ∧
    (resolveComponentKeyword "elbow" = some "厶") ∧
    ((buildGraph [elbowKanjiRecord, armKanjiRecord] [elbowPrimitiveRecord]
        (fun _ => none)).edges =
      [⟨"kanji_腕", "primitive_厶", .mnemonic_uses⟩,
       ⟨"primitive_厶", "kanji_腕", .used_in_mnemonic⟩]) := by
  refine ⟨?_, by decide, by decide⟩
  intro kanjiNodes primitiveNodes kw ch n hmap hfind
  unfold resolveMnemonicKeyword
  rw [hmap]
  cases hk : mapGet kanjiNodes (generateNodeId "kanji" ch) with
  | some m =>
    rw [hk] at hfind
    simp only [Option.some.injEq] at hfind
    subst hfind
    simp [hk]
  | none =>
    rw [hk] at hfind
    simp only [] at hfind
    simp [hk, hfind]

/-- **C7, witness**: the override-precedence rule applied to the concrete
elbow fixture maps. -/
theorem claim_C7_witness :
    resolveMnemonicKeyword
      (buildKanjiNodeMap [elbowKanjiRecord, armKanjiRecord] (fun _ => none))
      (buildPrimitiveNodeMap [elbowPrimitiveRecord]) "elbow" =
      some (createPrimitiveNode elbowPrimitiveRecord) :=
  claim_C7.1
    (buildKanjiNodeMap [elbowKanjiRecord, armKanjiRecord] (fun _ => none))
    (buildPrimitiveNodeMap [elbowPrimitiveRecord]) "elbow" "厶"
    (createPrimitiveNode elbowPrimitiveRecord) (by decide) (by decide)

/-! ### Claim C8 — kanji CSV row padding and rejection -/

/-- The record a kanji CSV row parses to (after padding to 8 fields). -/
def kanjiRowData (line : String) : KanjiData :=
  mkKanjiData (padFields (parseCSVLine line))

/-- The rejection condition of a kanji CSV row: after padding and
trimming, the character field is empty, or both alternate keyword fields
are empty. -/
def kanjiRowBad (line : String) : Bool :=
  let d := kanjiRowData line
  strTrim d.kanji = "" || (strTrim d.keyword5th = "" && strTrim d.keyword6th = "")

/-- A non-bad row passes `validateKanjiData`. -/
theorem validateKanjiData_ok (line : String) (n : Nat)
    (h : kanjiRowBad line = false) :
    validateKanjiData (kanjiRowData line) n = .ok () := by
  unfold kanjiRowBad at h
  simp only [Bool.or_eq_false_iff, Bool.and_eq_false_iff, decide_eq_false_iff_not] at h
  unfold validateKanjiData
  rcases h with ⟨h1, h2⟩
  rw [if_neg h1]
  rcases h2 with h2 | h2 <;> simp [h2]

/-- A bad row fails `validateKanjiData` with its line number. -/
theorem validateKanjiData_error (line : String) (n : Nat)
    (h : kanjiRowBad line = true) :
    ∃ msg, validateKanjiData (kanjiRowData line) n = .error ⟨msg, some n⟩ := by
  unfold kanjiRowBad at h
  unfold validateKanjiData
  by_cases h1 : strTrim (kanjiRowData line).kanji = ""
  · exact ⟨"Missing kanji character", by rw [if_pos h1]⟩
  · refine ⟨"Missing keywords", ?_⟩
    rw [if_neg h1]
    simp only [decide_eq_true_eq] at *
    have h2 : (decide (strTrim (kanjiRowData line).keyword5th = "") &&
        decide (strTrim (kanjiRowData line).keyword6th = "")) = true := by
      rcases Bool.or_eq_true_iff.mp h with hx | hx
      · exact absurd (of_decide_eq_true hx) h1
      · exact hx
    rw [if_pos h2]

/-- When every row is good, `parseKanjiRows` returns all the records. -/
theorem parseKanjiRows_ok (ls : List String) (n : Nat)
    (h : ∀ l ∈ ls, kanjiRowBad l = false) :
    parseKanjiRows ls n = .ok (ls.map kanjiRowData) := by
  induction ls generalizing n with
  | nil => rfl
  | cons line rest ih =>
    have hline := h line (List.mem_cons_self line rest)
    have hrest : ∀ l ∈ rest, kanjiRowBad l = false :=
      fun l hl => h l (List.mem_cons_of_mem line hl)
    have hv := validateKanjiData_ok line n hline
    unfold kanjiRowData at hv
    simp [parseKanjiRows, hv, ih (n + 1) hrest, kanjiRowData]

/-- The first bad row aborts `parseKanjiRows` with that row's line
number. -/
theorem parseKanjiRows_error (pre : List String) (l : String)
    (post : List String) (n : Nat)
    (hpre : ∀ x ∈ pre, kanjiRowBad x = false) (hbad : kanjiRowBad l = true) :
    ∃ msg, parseKanjiRows (pre ++ l :: post) n =
      .error ⟨msg, some (n + pre.length)⟩ := by
  induction pre generalizing n with
  | nil =>
    obtain ⟨msg, hmsg⟩ := validateKanjiData_error l n hbad
    refine ⟨msg, ?_⟩
    simp [parseKanjiRows, kanjiRowData] at hmsg ⊢
    simp [hmsg]
  | cons x pre ih =>
    have hx := hpre x (List.mem_cons_self x pre)
    have hpre' : ∀ y ∈ pre, kanjiRowBad y = false :=
      fun y hy => hpre y (List.mem_cons_of_mem x hy)
    obtain ⟨msg, hmsg⟩ := ih (n + 1) hpre'
    refine ⟨msg, ?_⟩
    have heq : n + 1 + pre.length = n + (pre.length + 1) := by omega
    rw [heq] at hmsg
    have hv := validateKanjiData_ok x n hx
    unfold kanjiRowData at hv
    simp [parseKanjiRows, hv, hmsg]

/-- **C8.** `parseKanjiCSV` pads short rows to 8 columns instead of
rejecting them; a (post-header) row is rejected — aborting the parse with
an error carrying that row's 1-based line number — exactly when, after
padding and trimming, the character field is empty or both alternate
keyword fields are empty. Concretely, the 4-field row `日,1,2,sun` parses
to a record padded with empty strings, while `x,9` (character present,
both keywords empty after padding) fails at its line number. -/
theorem claim_C8 :
    (∀ csvText : String, csvLines csvText ≠ [] →
      (∀ l ∈ (csvLines csvText).drop (headerStart (csvLines csvText) "kanji"),
        kanjiRowBad l = false) →
      parseKanjiCSV csvText =
        .ok (((csvLines csvText).drop
          (headerStart (csvLines csvText) "kanji")).map kanjiRowData)) ∧
    (∀ (csvText : String) (pre : List String) (l : String) (post : List String),
      (csvLines csvText).drop (headerStart (csvLines csvText) "kanji") =
        pre ++ l :: post →
      (∀ x ∈ pre, kanjiRowBad x = false) → kanjiRowBad l = true →
      ∃ msg, parseKanjiCSV csvText = .error
        ⟨msg, some (headerStart (csvLines csvText) "kanji" + 1 + pre.length)⟩) ∧
    (parseKanjiCSV "日,1,2,sun" =
      .ok [⟨"日", some 1, some 2, "sun", "", "", "", ""⟩]) ∧
    (parseKanjiCSV "日,1,2,sun\nx,9" = .error ⟨"Missing keywords", some 2⟩) ∧
    (parseKanjiCSV "日,1,2,sun\n ,7,8,a,b" =
      .error ⟨"Missing kanji character", some 2⟩) := by
  refine ⟨?_, ?_, by decide, by decide, by decide⟩
  · intro csvText hne hgood
    unfold parseKanjiCSV
    rw [if_neg (by simpa [List.length_eq_zero] using hne)]
    exact parseKanjiRows_ok _ _ hgood
  · intro csvText pre l post hsplit hpre hbad
    have hne : csvLines csvText ≠ [] := by
      intro h0
      rw [h0] at hsplit
      simp at hsplit
    obtain ⟨msg, hmsg⟩ :=
      parseKanjiRows_error pre l post
        (headerStart (csvLines csvText) "kanji" + 1) hpre hbad
    refine ⟨msg, ?_⟩
    unfold parseKanjiCSV
    rw [if_neg (by simpa [List.length_eq_zero] using hne)]
    show parseKanjiRows ((csvLines csvText).drop
      (headerStart (csvLines csvText) "kanji"))
      (headerStart (csvLines csvText) "kanji" + 1) = _
    rw [hsplit]
    exact hmsg

/-- **C8, witness**: the success branch of the theorem applied to a
concrete two-row CSV with a short second row. -/
theorem claim_C8_witness :
    parseKanjiCSV "日,1,2,sun\n月,3,4,moon" =
      .ok (((csvLines "日,1,2,sun\n月,3,4,moon").drop
        (headerStart (csvLines "日,1,2,sun\n月,3,4,moon") "kanji")).map
          kanjiRowData) :=
  claim_C8.1 "日,1,2,sun\n月,3,4,moon" (by decide) (by decide)

/-! ### Node-id uniqueness machinery (claims C1, C5, C9) -/

/-- A kanji node id can never equal a primitive node id: the two id
namespaces are disjoint by their prefixes. -/
theorem kanjiId_ne_primitiveId (s t : String) :
    ("kanji_" ++ s : String) ≠ "primitive_" ++ t := by
  intro h
  have hd := congrArg String.data h
  simp [String.data_append] at hd

/-- `generateNodeId "kanji" c` in explicit prefix form. -/
theorem generateNodeId_kanji (c : String) :
    generateNodeId "kanji" c = "kanji_" ++ sanitizeIdentifier c := rfl

/-- `generateNodeId "primitive" c` in explicit prefix form. -/
theorem generateNodeId_primitive (c : String) :
    generateNodeId "primitive" c = "primitive_" ++ sanitizeIdentifier c := rfl

/-- The invariant maintained by the node maps of `buildGraph`: keys are
distinct, each value's `id` equals its key, and every key carries the
kind's prefix. -/
def WellKeyed (pre : String) (m : NodeMap) : Prop :=
  (m.map Prod.fst).Nodup ∧ ∀ p ∈ m, p.2.id = p.1 ∧ ∃ s, p.1 = pre ++ s

/-- `mapSet` preserves `WellKeyed` when the inserted value is keyed by its
own id in the right namespace. -/
theorem mapSet_wellKeyed {pre : String} {m : NodeMap} {k : String}
    {v : GraphNode} (hm : WellKeyed pre m) (hv : v.id = k)
    (hk : ∃ s, k = pre ++ s) : WellKeyed pre (mapSet m k v) := by
  obtain ⟨hnd, hmem⟩ := hm
  unfold mapSet
  by_cases hany : m.any (fun p => p.1 = k)
  · rw [if_pos hany]
    constructor
    · have hkeys : (m.map (fun p => if p.1 = k then (k, v) else p)).map Prod.fst =
          m.map Prod.fst := by
        rw [List.map_map]
        refine List.map_congr_left ?_
        intro p _
        by_cases hp : p.1 = k
        · simp [hp]
        · simp [hp]
      rw [hkeys]
      exact hnd
    · intro q hq
      obtain ⟨p, hp, hpq⟩ := List.mem_map.mp hq
      by_cases hpk : p.1 = k
      · rw [if_pos hpk] at hpq
        subst hpq
        exact ⟨hv, hk⟩
      · rw [if_neg hpk] at hpq
        subst hpq
        exact hmem p hp
  · rw [if_neg hany]
    constructor
    · rw [List.map_append, List.nodup_append]
      refine ⟨hnd, List.nodup_singleton k, ?_⟩
      intro x hx hx'
      simp at hx'
      subst hx'
      obtain ⟨p, hp, hpx⟩ := List.mem_map.mp hx
      rw [List.any_eq_true] at hany
      exact hany ⟨p, hp, by simpa using hpx⟩
    · intro q hq
      rcases List.mem_append.mp hq with h | h
      · exact hmem q h
      · simp at h
        subst h
        exact ⟨hv, hk⟩

/-- The kanji node map of `buildGraph` is well keyed under `kanji_`. -/
theorem buildKanjiNodeMap_wellKeyed (kanjiData : List KanjiData)
    (jl : String → Option JLPTLevel) :
    WellKeyed "kanji_" (buildKanjiNodeMap kanjiData jl) := by
  unfold buildKanjiNodeMap
  generalize hm : ([] : NodeMap) = m0
  have h0 : WellKeyed "kanji_" m0 := by
    rw [← hm]
    exact ⟨List.nodup_nil, by intro p hp; cases hp⟩
  clear hm
  induction kanjiData generalizing m0 with
  | nil => exact h0
  | cons k rest ih =>
    refine ih _ (mapSet_wellKeyed h0 rfl ?_)
    exact ⟨sanitizeIdentifier k.kanji, generateNodeId_kanji k.kanji⟩

/-- The primitive node map of `buildGraph` is well keyed under
`primitive_`. -/
theorem buildPrimitiveNodeMap_wellKeyed (primitivesData : List PrimitiveData) :
    WellKeyed "primitive_" (buildPrimitiveNodeMap primitivesData) := by
  unfold buildPrimitiveNodeMap
  generalize hm : ([] : NodeMap) = m0
  have h0 : WellKeyed "primitive_" m0 := by
    rw [← hm]
    exact ⟨List.nodup_nil, by intro p hp; cases hp⟩
  clear hm
  induction primitivesData generalizing m0 with
  | nil => exact h0
  | cons p rest ih =>
    refine ih _ (mapSet_wellKeyed h0 rfl ?_)
    exact ⟨_, generateNodeId_primitive _⟩

/-- The ids of a well-keyed map's values are its keys. -/
theorem mapValues_ids {pre : String} {m : NodeMap} (h : WellKeyed pre m) :
    (mapValues m).map GraphNode.id = m.map Prod.fst := by
  unfold mapValues
  rw [List.map_map]
  exact List.map_congr_left (fun p hp => (h.2 p hp).1)

/-- The node list built by `buildGraph` has pairwise-distinct ids, for
every input. -/
theorem buildGraph_ids_nodup (kanjiData : List KanjiData)
    (primitivesData : List PrimitiveData) (jl : String → Option JLPTLevel) :
    (((buildGraph kanjiData primitivesData jl).nodes).map GraphNode.id).Nodup := by
  have hk := buildKanjiNodeMap_wellKeyed kanjiData jl
  have hp := buildPrimitiveNodeMap_wellKeyed primitivesData
  show ((mapValues (buildKanjiNodeMap kanjiData jl) ++
      mapValues (buildPrimitiveNodeMap primitivesData)).map GraphNode.id).Nodup
  rw [List.map_append, mapValues_ids hk, mapValues_ids hp, List.nodup_append]
  refine ⟨hk.1, hp.1, ?_⟩
  intro x hx hx'
  obtain ⟨p, hpm, rfl⟩ := List.mem_map.mp hx
  obtain ⟨q, hqm, hq⟩ := List.mem_map.mp hx'
  obtain ⟨_, s, hs⟩ := hk.2 p hpm
  obtain ⟨_, t, ht⟩ := hp.2 q hqm
  exact kanjiId_ne_primitiveId s t (by rw [← hs, ← hq]; exact ht)

/-- The duplicate scan returns `[]` on a list with pairwise-distinct
ids. -/
theorem duplicateScan_eq_nil {nodes : List GraphNode}
    (h : (nodes.map GraphNode.id).Nodup) : duplicateScan nodes = [] := by
  unfold duplicateScan
  suffices haux : ∀ (ns : List GraphNode) (seen dups : List String),
      (ns.map GraphNode.id).Nodup → (∀ n ∈ ns, n.id ∉ seen) →
      (ns.foldl (fun (acc : List String × List String) n =>
        if acc.1.contains n.id then (acc.1, acc.2 ++ [n.id])
        else (acc.1 ++ [n.id], acc.2)) (seen, dups)).2 = dups by
    exact haux nodes [] [] h (by intro n _ hn; cases hn)
  intro ns
  induction ns with
  | nil => intro seen dups _ _; rfl
  | cons n rest ih =>
    intro seen dups hnd hfresh
    have hn : n.id ∉ seen := hfresh n (List.mem_cons_self n rest)
    have hcontains : seen.contains n.id = false := by
      by_contra hc
      rw [Bool.not_eq_false] at hc
      exact hn (List.mem_of_elem_eq_true hc)
    simp only [List.foldl_cons, hcontains, Bool.false_eq_true, if_false]
    refine ih (seen ++ [n.id]) dups ((List.nodup_cons.mp (by simpa using hnd)).2) ?_
    intro m hm hmem
    rcases List.mem_append.mp hmem with h' | h'
    · exact hfresh m (List.mem_cons_of_mem n hm) h'
    · simp at h'
      have : n.id ∉ rest.map GraphNode.id :=
        (List.nodup_cons.mp (by simpa using hnd)).1
      exact this (h' ▸ List.mem_map_of_mem GraphNode.id hm)

/-! ### Claims C5 and C9 — id uniqueness and the duplicate check -/

/-- Fixture: record whose character "a b" sanitizes to `a_b`. -/
def collideRecordA : KanjiData := ⟨"a b", none, some 1, "", "first", "", "", ""⟩

/-- Fixture: record whose character "a-b" also sanitizes to `a_b`. -/
def collideRecordB : KanjiData := ⟨"a-b", none, some 2, "", "second", "", "", ""⟩

/-- **C9.** For every input, `buildValidatedGraph` returns an empty
`duplicateNodes` list: each node kind is stored in a Map keyed by id
before the combined node list is formed (a later record with a colliding
sanitized key silently overwrites the earlier one's value), and `kanji_`
ids are disjoint from `primitive_` ids, so the combined list never holds a
repeated id and the duplicate check cannot fire. The concrete conjunct
shows the silent overwrite: two colliding records leave a single node
carrying the second record's keyword. -/
theorem claim_C9 :
    (∀ (kanjiData : List KanjiData) (primitivesData : List PrimitiveData)
      (jl : String → Option JLPTLevel),
      (buildValidatedGraph kanjiData primitivesData jl).validation.duplicateNodes
        = []) ∧
    (generateNodeId "kanji" "a b" = generateNodeId "kanji" "a-b") ∧
    ((buildValidatedGraph [collideRecordA, collideRecordB] [] (fun _ => none)
      ).graph.nodes.map GraphNode.keyword = ["second"]) := by
  refine ⟨?_, by decide, by decide⟩
  intro kanjiData primitivesData jl
  show duplicateScan (buildGraph kanjiData primitivesData jl).nodes = []
  exact duplicateScan_eq_nil (buildGraph_ids_nodup kanjiData primitivesData jl)

/-- **C5, counterexample.** Two records with colliding sanitized keys
("a b" and "a-b" both yield id `kanji_a_b`) are silently merged — the
graph keeps a single node holding the second record's data — and the
validated build variant reports no duplicate: `duplicateNodes` is empty,
so the fault is not reported. -/
theorem claim_C5_counterexample :
    (generateNodeId "kanji" "a b" = generateNodeId "kanji" "a-b") ∧
    ((buildValidatedGraph [collideRecordA, collideRecordB] [] (fun _ => none)
      ).graph.nodes.length = 1) ∧
    ((buildValidatedGraph [collideRecordA, collideRecordB] [] (fun _ => none)
      ).validation.duplicateNodes = []) := by
  refine ⟨by decide, by decide, by decide⟩

/-- **C5 (amended).** Node ids produced by the Graph Builder are unique
across the whole node set (and deterministic — the builder is a pure
function of its input); but two records whose sanitized keys collide are
NOT reported: the later record silently overwrites the earlier one in the
per-kind Map before the duplicate check runs, so the validated variant's
`duplicateNodes` diagnostics stay empty. -/
theorem claim_C5 (kanjiData : List KanjiData)
    (primitivesData : List PrimitiveData) (jl : String → Option JLPTLevel) :
    (((buildGraph kanjiData primitivesData jl).nodes).map GraphNode.id).Nodup :=
  buildGraph_ids_nodup kanjiData primitivesData jl

/-! ### Claim C1 — mirrored edge pairs and per-pair uniqueness -/

/-- The `(source, target)` pairs of the `mnemonic_uses` edges of an edge
list. -/
def usesPairs (edges : List GraphEdge) : List (String × String) :=
  (edges.filter (fun e => e.type = EdgeKind.mnemonic_uses)).map
    (fun e => (e.source, e.target))

/-- An edge list where every `mnemonic_uses (a,b)` has exactly as many
`used_in_mnemonic (b,a)` mirrors, and vice versa. -/
def MirrorBalanced (edges : List GraphEdge) : Prop :=
  ∀ a b : String,
    edges.count ⟨a, b, EdgeKind.mnemonic_uses⟩ =
      edges.count ⟨b, a, EdgeKind.used_in_mnemonic⟩

/-- Appending one `uses`/`used_in` pair keeps an edge list balanced. -/
theorem balanced_append_pair {edges : List GraphEdge} (h : MirrorBalanced edges)
    (x y : String) :
    MirrorBalanced (edges ++ [⟨x, y, EdgeKind.mnemonic_uses⟩,
      ⟨y, x, EdgeKind.used_in_mnemonic⟩]) := by
  intro a b
  rw [List.count_append, List.count_append, h a b]
  congr 1
  simp only [List.count_cons, List.count_nil, GraphEdge.mk.injEq]
  by_cases hax : a = x <;> by_cases hby : b = y <;> simp [hax, hby, and_comm]

/-- The keyword fold of one kanji record keeps the edge list balanced. -/
theorem foldl_processKeyword_balanced (kanjiNodes primitiveNodes : NodeMap)
    (kanjiId : String) :
    ∀ (kws : List String) (acc : List GraphEdge × List String × List String),
      MirrorBalanced acc.1 →
      MirrorBalanced ((kws.foldl (processKeyword kanjiNodes primitiveNodes kanjiId)
        acc).1)
  | [], _, h => h
  | kw :: rest, acc, h => by
    rw [List.foldl_cons]
    refine foldl_processKeyword_balanced kanjiNodes primitiveNodes kanjiId
      rest _ ?_
    obtain ⟨edges, created, missing⟩ := acc
    unfold processKeyword
    cases resolveMnemonicKeyword kanjiNodes primitiveNodes kw with
    | none => exact h
    | some n =>
      by_cases hc : created.contains n.id
      · simp only [hc, if_true]
        exact h
      · simp only [hc, Bool.false_eq_true, if_false]
        exact balanced_append_pair h kanjiId n.id

/-- The record fold of `createMnemonicEdges` keeps the edge list
balanced. -/
theorem foldl_processKanjiRecord_balanced (kanjiNodes primitiveNodes : NodeMap) :
    ∀ (kanjiData : List KanjiData) (acc : List GraphEdge × List String),
      MirrorBalanced acc.1 →
      MirrorBalanced ((kanjiData.foldl (processKanjiRecord kanjiNodes primitiveNodes)
        acc).1)
  | [], _, h => h
  | k :: rest, acc, h => by
    rw [List.foldl_cons]
    refine foldl_processKanjiRecord_balanced kanjiNodes primitiveNodes rest _ ?_
    have hb := foldl_processKeyword_balanced kanjiNodes primitiveNodes
      (generateNodeId "kanji" k.kanji) (parseComponents k.components)
      (acc.1, [], acc.2) h
    unfold processKanjiRecord
    cases hg : mapGet kanjiNodes (generateNodeId "kanji" k.kanji) with
    | none =>
      simp only [hg]
      exact h
    | some v =>
      simp only [hg]
      rcases hr : List.foldl (processKeyword kanjiNodes primitiveNodes
        (generateNodeId "kanji" k.kanji)) (acc.1, [], acc.2)
        (parseComponents k.components) with ⟨e, c, m⟩
      simp only [hr]
      rw [hr] at hb
      exact hb

/-- `usesPairs` distributes over append. -/
theorem usesPairs_append (e1 e2 : List GraphEdge) :
    usesPairs (e1 ++ e2) = usesPairs e1 ++ usesPairs e2 := by
  simp [usesPairs, List.filter_append]

/-- The pairs contributed by one mirrored edge block. -/
theorem usesPairs_pair_block (kid tid : String) :
    usesPairs [⟨kid, tid, EdgeKind.mnemonic_uses⟩,
      ⟨tid, kid, EdgeKind.used_in_mnemonic⟩] = [(kid, tid)] := by
  simp [usesPairs]

/-- The keyword fold of one kanji record appends, to the `mnemonic_uses`
pair list, exactly the pairs `(kanjiId, t)` for the distinct new targets
`t` it links, which are the record's `createdTargets`. -/
theorem foldl_processKeyword_usesPairs (kanjiNodes primitiveNodes : NodeMap)
    (kanjiId : String) :
    ∀ (kws : List String) (edges : List GraphEdge) (created missing : List String),
      created.Nodup →
      ∃ newT : List String,
        usesPairs ((kws.foldl (processKeyword kanjiNodes primitiveNodes kanjiId)
            (edges, created, missing)).1) =
          usesPairs edges ++ newT.map (fun t => (kanjiId, t)) ∧
        ((kws.foldl (processKeyword kanjiNodes primitiveNodes kanjiId)
            (edges, created, missing)).2.1) = created ++ newT ∧
        (created ++ newT).Nodup := by
  intro kws
  induction kws with
  | nil =>
    intro edges created missing hnd
    exact ⟨[], by simp, by simp, by simpa using hnd⟩
  | cons kw rest ih =>
    intro edges created missing hnd
    rw [List.foldl_cons]
    cases hres : resolveMnemonicKeyword kanjiNodes primitiveNodes kw with
    | none =>
      have hstep : processKeyword kanjiNodes primitiveNodes kanjiId
          (edges, created, missing) kw = (edges, created, setAdd missing kw) := by
        simp [processKeyword, hres]
      rw [hstep]
      exact ih edges created (setAdd missing kw) hnd
    | some n =>
      by_cases hc : created.contains n.id
      · have hstep : processKeyword kanjiNodes primitiveNodes kanjiId
            (edges, created, missing) kw = (edges, created, missing) := by
          simp [processKeyword, hres, List.mem_of_elem_eq_true hc]
        rw [hstep]
        exact ih edges created missing hnd
      · have hstep : processKeyword kanjiNodes primitiveNodes kanjiId
            (edges, created, missing) kw =
            (edges ++ [⟨kanjiId, n.id, EdgeKind.mnemonic_uses⟩,
              ⟨n.id, kanjiId, EdgeKind.used_in_mnemonic⟩],
             created ++ [n.id], missing) := by
          have hnm : n.id ∉ created := fun hmem => hc (List.elem_eq_true_of_mem hmem)
          simp [processKeyword, hres, hnm]
        rw [hstep]
        have hnotmem : n.id ∉ created := by
          intro hmem
          exact hc (List.elem_eq_true_of_mem hmem)
        have hnd' : (created ++ [n.id]).Nodup := by
          rw [List.perm_append_singleton n.id created |>.nodup_iff]
          exact List.nodup_cons.mpr ⟨hnotmem, hnd⟩
        obtain ⟨newT, h1, h2, h3⟩ := ih _ (created ++ [n.id]) missing hnd'
        refine ⟨n.id :: newT, ?_, ?_, ?_⟩
        · rw [h1, usesPairs_append, usesPairs_pair_block]
          simp
        · rw [h2, List.append_assoc]
          rfl
        · rw [List.append_assoc] at h3
          exact h3

/-- The record fold of `createMnemonicEdges` keeps the `mnemonic_uses`
pair list duplicate-free, provided the pending records' kanji ids are
pairwise distinct and fresh. -/
theorem foldl_processKanjiRecord_nodup (kanjiNodes primitiveNodes : NodeMap) :
    ∀ (kanjiData : List KanjiData) (acc : List GraphEdge × List String),
      (usesPairs acc.1).Nodup →
      (∀ pr ∈ usesPairs acc.1,
        pr.1 ∉ kanjiData.map (fun k => generateNodeId "kanji" k.kanji)) →
      (kanjiData.map (fun k => generateNodeId "kanji" k.kanji)).Nodup →
      (usesPairs ((kanjiData.foldl
        (processKanjiRecord kanjiNodes primitiveNodes) acc).1)).Nodup := by
  intro kanjiData
  induction kanjiData with
  | nil => intro acc h _ _; exact h
  | cons k rest ih =>
    intro acc hnd hsrc hids
    rw [List.foldl_cons]
    have hkid_notin_rest :
        generateNodeId "kanji" k.kanji ∉
          rest.map (fun k => generateNodeId "kanji" k.kanji) :=
      (List.nodup_cons.mp (by simpa using hids)).1
    have hids_rest : (rest.map (fun k => generateNodeId "kanji" k.kanji)).Nodup :=
      (List.nodup_cons.mp (by simpa using hids)).2
    cases hg : mapGet kanjiNodes (generateNodeId "kanji" k.kanji) with
    | none =>
      have hstep : processKanjiRecord kanjiNodes primitiveNodes acc k = acc := by
        simp [processKanjiRecord, hg]
      rw [hstep]
      refine ih acc hnd ?_ hids_rest
      intro pr hpr
      exact fun hmem => hsrc pr hpr (List.mem_cons_of_mem _ hmem)
    | some v =>
      obtain ⟨newT, h1, _h2, h3⟩ :=
        foldl_processKeyword_usesPairs kanjiNodes primitiveNodes
          (generateNodeId "kanji" k.kanji) (parseComponents k.components)
          acc.1 [] acc.2 List.nodup_nil
      have hstep : processKanjiRecord kanjiNodes primitiveNodes acc k =
          (((parseComponents k.components).foldl
            (processKeyword kanjiNodes primitiveNodes
              (generateNodeId "kanji" k.kanji)) (acc.1, [], acc.2)).1,
           ((parseComponents k.components).foldl
            (processKeyword kanjiNodes primitiveNodes
              (generateNodeId "kanji" k.kanji)) (acc.1, [], acc.2)).2.2) := by
        unfold processKanjiRecord
        simp only [hg]
      rw [hstep]
      have hnew_nodup : (usesPairs ((parseComponents k.components).foldl
          (processKeyword kanjiNodes primitiveNodes
            (generateNodeId "kanji" k.kanji)) (acc.1, [], acc.2)).1).Nodup := by
        rw [h1, List.nodup_append]
        refine ⟨hnd, ?_, ?_⟩
        · refine List.Nodup.map ?_ (by simpa using h3)
          intro a b hab
          simpa using congrArg Prod.snd hab
        · intro pr hpr hpr'
          obtain ⟨t, _, rfl⟩ := List.mem_map.mp hpr'
          exact hsrc _ hpr (List.mem_cons_self _ _)
      refine ih _ hnew_nodup ?_ hids_rest
      intro pr hpr
      rw [h1] at hpr
      rcases List.mem_append.mp hpr with h | h
      · exact fun hmem => hsrc pr h (List.mem_cons_of_mem _ hmem)
      · obtain ⟨t, _, rfl⟩ := List.mem_map.mp h
        exact hkid_notin_rest

/-- The edge list of `buildGraph` is the edge list computed by
`createMnemonicEdges` over the two node maps. -/
theorem buildGraph_edges (kanjiData : List KanjiData)
    (primitivesData : List PrimitiveData) (jl : String → Option JLPTLevel) :
    (buildGraph kanjiData primitivesData jl).edges =
      (createMnemonicEdges (buildKanjiNodeMap kanjiData jl)
        (buildPrimitiveNodeMap primitivesData) kanjiData).1 := by
  unfold buildGraph
  rcases h : createMnemonicEdges (buildKanjiNodeMap kanjiData jl)
    (buildPrimitiveNodeMap primitivesData) kanjiData with ⟨e, m⟩
  simp [h]

/-- **C1, counterexample.** The per-(kanji, target) uniqueness is tracked
per RECORD, not per kanji id: feeding `buildGraph` the same kanji record
twice produces the same `mnemonic_uses` edge twice, so "at most one
mnemonic_uses edge per (kanji, resolved-target) pair" fails for arbitrary
record arrays. -/
theorem claim_C1_counterexample :
    (usesPairs (buildGraph [armKanjiRecord, armKanjiRecord]
        [elbowPrimitiveRecord] (fun _ => none)).edges).count
      ("kanji_腕", "primitive_厶") = 2 := by
  decide

/-- **C1 (amended).** In every graph produced by `buildGraph`, each
`mnemonic_uses (a, b)` edge has exactly as many `used_in_mnemonic (b, a)`
mirrors and vice versa (they are pushed as a pair); and provided no two
kanji records map to the same node id, at most one `mnemonic_uses` edge
exists per (kanji, resolved-target) pair even if a keyword token repeats
inside one record's mnemonic text (duplicate records for the same kanji
character do duplicate the pair). -/
theorem claim_C1 :
    (∀ (kanjiData : List KanjiData) (primitivesData : List PrimitiveData)
        (jl : String → Option JLPTLevel) (a b : String),
      ((buildGraph kanjiData primitivesData jl).edges).count
          ⟨a, b, EdgeKind.mnemonic_uses⟩ =
        ((buildGraph kanjiData primitivesData jl).edges).count
          ⟨b, a, EdgeKind.used_in_mnemonic⟩) ∧
    (∀ (kanjiData : List KanjiData) (primitivesData : List PrimitiveData)
        (jl : String → Option JLPTLevel),
      (kanjiData.map (fun k => generateNodeId "kanji" k.kanji)).Nodup →
      (usesPairs (buildGraph kanjiData primitivesData jl).edges).Nodup) := by
  constructor
  · intro kanjiData primitivesData jl a b
    rw [buildGraph_edges]
    exact foldl_processKanjiRecord_balanced _ _ kanjiData ([], [])
      (fun _ _ => rfl) a b
  · intro kanjiData primitivesData jl hids
    rw [buildGraph_edges]
    refine foldl_processKanjiRecord_nodup _ _ kanjiData ([], [])
      List.nodup_nil ?_ hids
    intro pr hpr
    cases hpr

/-- **C1, witness**: the mirror count and the pair uniqueness at the
concrete elbow fixture. -/
theorem claim_C1_witness :
    ((buildGraph [elbowKanjiRecord, armKanjiRecord] [elbowPrimitiveRecord]
        (fun _ => none)).edges.count
        ⟨"kanji_腕", "primitive_厶", EdgeKind.mnemonic_uses⟩ =
      (buildGraph [elbowKanjiRecord, armKanjiRecord] [elbowPrimitiveRecord]
        (fun _ => none)).edges.count
        ⟨"primitive_厶", "kanji_腕", EdgeKind.used_in_mnemonic⟩) ∧
    (usesPairs (buildGraph [elbowKanjiRecord, armKanjiRecord]
        [elbowPrimitiveRecord] (fun _ => none)).edges).Nodup :=
  ⟨claim_C1.1 [elbowKanjiRecord, armKanjiRecord] [elbowPrimitiveRecord]
      (fun _ => none) "kanji_腕" "primitive_厶",
   claim_C1.2 [elbowKanjiRecord, armKanjiRecord] [elbowPrimitiveRecord]
      (fun _ => none) (by decide)⟩

/-! ### Claim C6 — unresolved keywords: diagnostics, never errors -/

/-- `setAdd` contains the added element. -/
theorem setAdd_mem_self (s : List String) (x : String) : x ∈ setAdd s x := by
  unfold setAdd
  by_cases h : s.contains x
  · rw [if_pos h]
    exact List.mem_of_elem_eq_true h
  · rw [if_neg h]
    exact List.mem_append.mpr (Or.inr (List.mem_singleton.mpr rfl))

/-- `setAdd` keeps existing elements. -/
theorem setAdd_mem_mono {s : List String} {x : String} (y : String)
    (h : x ∈ s) : x ∈ setAdd s y := by
  unfold setAdd
  by_cases hy : s.contains y
  · rwa [if_pos hy]
  · rw [if_neg hy]
    exact List.mem_append.mpr (Or.inl h)

/-- One keyword step never drops a recorded missing keyword. -/
theorem processKeyword_missing_mono (kanjiNodes primitiveNodes : NodeMap)
    (kanjiId : String) (acc : List GraphEdge × List String × List String)
    (kw : String) {x : String} (h : x ∈ acc.2.2) :
    x ∈ (processKeyword kanjiNodes primitiveNodes kanjiId acc kw).2.2 := by
  obtain ⟨e, c, m⟩ := acc
  unfold processKeyword
  cases resolveMnemonicKeyword kanjiNodes primitiveNodes kw with
  | none => exact setAdd_mem_mono kw h
  | some n =>
    by_cases hc : c.contains n.id
    · have hm : n.id ∈ c := List.mem_of_elem_eq_true hc
      simpa [hm] using h
    · have hm : n.id ∉ c := fun hmem => hc (List.elem_eq_true_of_mem hmem)
      simpa [hm] using h

/-- The keyword fold never drops a recorded missing keyword. -/
theorem foldl_processKeyword_missing_mono (kanjiNodes primitiveNodes : NodeMap)
    (kanjiId : String) :
    ∀ (kws : List String) (acc : List GraphEdge × List String × List String)
      {x : String}, x ∈ acc.2.2 →
      x ∈ ((kws.foldl (processKeyword kanjiNodes primitiveNodes kanjiId)
        acc).2.2)
  | [], _, _, h => h
  | kw :: rest, acc, x, h => by
    rw [List.foldl_cons]
    exact foldl_processKeyword_missing_mono kanjiNodes primitiveNodes kanjiId
      rest _ (processKeyword_missing_mono kanjiNodes primitiveNodes kanjiId
        acc kw h)

/-- A token of the keyword list that resolves to no node is recorded in
the missing set by the keyword fold. -/
theorem foldl_processKeyword_missing_rec (kanjiNodes primitiveNodes : NodeMap)
    (kanjiId : String) :
    ∀ (kws : List String) (acc : List GraphEdge × List String × List String)
      {tok : String}, tok ∈ kws →
      resolveMnemonicKeyword kanjiNodes primitiveNodes tok = none →
      tok ∈ ((kws.foldl (processKeyword kanjiNodes primitiveNodes kanjiId)
        acc).2.2)
  | kw :: rest, acc, tok, hmem, hres => by
    rw [List.foldl_cons]
    rcases List.mem_cons.mp hmem with rfl | hmem'
    · refine foldl_processKeyword_missing_mono kanjiNodes primitiveNodes
        kanjiId rest _ ?_
      obtain ⟨e, c, m⟩ := acc
      unfold processKeyword
      rw [hres]
      exact setAdd_mem_self m tok
    · exact foldl_processKeyword_missing_rec kanjiNodes primitiveNodes kanjiId
        rest _ hmem' hres

/-- One record step, when the record's kanji node is absent, is the
identity. -/
theorem processKanjiRecord_eq_of_none (kanjiNodes primitiveNodes : NodeMap)
    (acc : List GraphEdge × List String) (k : KanjiData)
    (hv : mapGet kanjiNodes (generateNodeId "kanji" k.kanji) = none) :
    processKanjiRecord kanjiNodes primitiveNodes acc k = acc := by
  unfold processKanjiRecord
  simp only [hv]

/-- One record step, when the record's kanji node is present, runs the
keyword fold with a fresh `createdTargets` set. -/
theorem processKanjiRecord_eq_of_some (kanjiNodes primitiveNodes : NodeMap)
    (acc : List GraphEdge × List String) (k : KanjiData) (v : GraphNode)
    (hv : mapGet kanjiNodes (generateNodeId "kanji" k.kanji) = some v) :
    processKanjiRecord kanjiNodes primitiveNodes acc k =
      (((parseComponents k.components).foldl
        (processKeyword kanjiNodes primitiveNodes
          (generateNodeId "kanji" k.kanji)) (acc.1, [], acc.2)).1,
       ((parseComponents k.components).foldl
        (processKeyword kanjiNodes primitiveNodes
          (generateNodeId "kanji" k.kanji)) (acc.1, [], acc.2)).2.2) := by
  unfold processKanjiRecord
  simp only [hv]

/-- One record step never drops a recorded missing keyword. -/
theorem processKanjiRecord_missing_mono (kanjiNodes primitiveNodes : NodeMap)
    (acc : List GraphEdge × List String) (k : KanjiData) {x : String}
    (h : x ∈ acc.2) :
    x ∈ (processKanjiRecord kanjiNodes primitiveNodes acc k).2 := by
  cases hg : mapGet kanjiNodes (generateNodeId "kanji" k.kanji) with
  | none =>
    rw [processKanjiRecord_eq_of_none kanjiNodes primitiveNodes acc k hg]
    exact h
  | some v =>
    rw [processKanjiRecord_eq_of_some kanjiNodes primitiveNodes acc k v hg]
    exact foldl_processKeyword_missing_mono kanjiNodes primitiveNodes
      (generateNodeId "kanji" k.kanji) (parseComponents k.components)
      (acc.1, [], acc.2) h

/-- The record fold never drops a recorded missing keyword. -/
theorem foldl_processKanjiRecord_missing_mono (kanjiNodes primitiveNodes : NodeMap) :
    ∀ (kanjiData : List KanjiData) (acc : List GraphEdge × List String)
      {x : String}, x ∈ acc.2 →
      x ∈ ((kanjiData.foldl (processKanjiRecord kanjiNodes primitiveNodes)
        acc).2)
  | [], _, _, h => h
  | k :: rest, acc, x, h => by
    rw [List.foldl_cons]
    exact foldl_processKanjiRecord_missing_mono kanjiNodes primitiveNodes rest _
      (processKanjiRecord_missing_mono kanjiNodes primitiveNodes acc k h)

/-- An unresolved token of a present record is recorded in the
missing-mnemonics set of `createMnemonicEdges`. -/
theorem createMnemonicEdges_missing_rec (kanjiNodes primitiveNodes : NodeMap)
    (kanjiData : List KanjiData) (r : KanjiData) (tok : String)
    (hr : r ∈ kanjiData)
    (hsome : (mapGet kanjiNodes (generateNodeId "kanji" r.kanji)).isSome)
    (htok : tok ∈ parseComponents r.components)
    (hres : resolveMnemonicKeyword kanjiNodes primitiveNodes tok = none) :
    tok ∈ (createMnemonicEdges kanjiNodes primitiveNodes kanjiData).2 := by
  obtain ⟨l1, l2, rfl⟩ := List.append_of_mem hr
  unfold createMnemonicEdges
  rw [List.foldl_append, List.foldl_cons]
  obtain ⟨v, hv⟩ := Option.isSome_iff_exists.mp hsome
  refine foldl_processKanjiRecord_missing_mono kanjiNodes primitiveNodes l2 _ ?_
  rw [processKanjiRecord_eq_of_some kanjiNodes primitiveNodes _ r v hv]
  exact foldl_processKeyword_missing_rec kanjiNodes primitiveNodes
    (generateNodeId "kanji" r.kanji) (parseComponents r.components)
    _ htok hres

/-- An edge justified by a resolved keyword: its non-kanji endpoint is the
id of a node some keyword resolves to. -/
def EdgeResolved (kanjiNodes primitiveNodes : NodeMap) (e : GraphEdge) : Prop :=
  ∃ tok n, resolveMnemonicKeyword kanjiNodes primitiveNodes tok = some n ∧
    ((e.type = EdgeKind.mnemonic_uses ∧ e.target = n.id) ∨
     (e.type = EdgeKind.used_in_mnemonic ∧ e.source = n.id))

/-- Every edge emitted by the keyword fold is justified by a resolved
keyword. -/
theorem foldl_processKeyword_resolved (kanjiNodes primitiveNodes : NodeMap)
    (kanjiId : String) :
    ∀ (kws : List String) (acc : List GraphEdge × List String × List String),
      (∀ e ∈ acc.1, EdgeResolved kanjiNodes primitiveNodes e) →
      ∀ e ∈ ((kws.foldl (processKeyword kanjiNodes primitiveNodes kanjiId)
        acc).1), EdgeResolved kanjiNodes primitiveNodes e
  | [], _, h => h
  | kw :: rest, acc, h => by
    rw [List.foldl_cons]
    refine foldl_processKeyword_resolved kanjiNodes primitiveNodes kanjiId
      rest _ ?_
    obtain ⟨edges, created, missing⟩ := acc
    cases hres : resolveMnemonicKeyword kanjiNodes primitiveNodes kw with
    | none =>
      have hstep : processKeyword kanjiNodes primitiveNodes kanjiId
          (edges, created, missing) kw = (edges, created, setAdd missing kw) := by
        simp [processKeyword, hres]
      rw [hstep]
      exact h
    | some n =>
      by_cases hc : created.contains n.id
      · have hm : n.id ∈ created := List.mem_of_elem_eq_true hc
        have hstep : processKeyword kanjiNodes primitiveNodes kanjiId
            (edges, created, missing) kw = (edges, created, missing) := by
          simp [processKeyword, hres, hm]
        rw [hstep]
        exact h
      · have hm : n.id ∉ created := fun hmem => hc (List.elem_eq_true_of_mem hmem)
        have hstep : processKeyword kanjiNodes primitiveNodes kanjiId
            (edges, created, missing) kw =
            (edges ++ [⟨kanjiId, n.id, EdgeKind.mnemonic_uses⟩,
              ⟨n.id, kanjiId, EdgeKind.used_in_mnemonic⟩],
             created ++ [n.id], missing) := by
          simp [processKeyword, hres, hm]
        rw [hstep]
        intro e he
        rcases List.mem_append.mp he with he' | he'
        · exact h e he'
        · rcases List.mem_cons.mp he' with rfl | he''
          · exact ⟨kw, n, hres, Or.inl ⟨rfl, rfl⟩⟩
          · rcases List.mem_singleton.mp he'' with rfl
            exact ⟨kw, n, hres, Or.inr ⟨rfl, rfl⟩⟩

/-- Every edge emitted by `createMnemonicEdges` is justified by a resolved
keyword; an unresolved token therefore contributes no edge. -/
theorem createMnemonicEdges_resolved (kanjiNodes primitiveNodes : NodeMap) :
    ∀ (kanjiData : List KanjiData) (acc : List GraphEdge × List String),
      (∀ e ∈ acc.1, EdgeResolved kanjiNodes primitiveNodes e) →
      ∀ e ∈ ((kanjiData.foldl (processKanjiRecord kanjiNodes primitiveNodes)
        acc).1), EdgeResolved kanjiNodes primitiveNodes e
  | [], _, h => h
  | k :: rest, acc, h => by
    rw [List.foldl_cons]
    refine createMnemonicEdges_resolved kanjiNodes primitiveNodes rest _ ?_
    cases hg : mapGet kanjiNodes (generateNodeId "kanji" k.kanji) with
    | none =>
      rw [processKanjiRecord_eq_of_none kanjiNodes primitiveNodes acc k hg]
      exact h
    | some v =>
      rw [processKanjiRecord_eq_of_some kanjiNodes primitiveNodes acc k v hg]
      exact foldl_processKeyword_resolved kanjiNodes primitiveNodes
        (generateNodeId "kanji" k.kanji) (parseComponents k.components)
        (acc.1, [], acc.2) h

/-- `List.find?` only depends on the predicate's values on the list. -/
theorem find?_congrPred {α : Type} (p q : α → Bool) :
    ∀ l : List α, (∀ x ∈ l, p x = q x) → l.find? p = l.find? q
  | [], _ => rfl
  | x :: xs, h => by
    have hx := h x (List.mem_cons_self x xs)
    simp only [List.find?]
    rw [hx]
    cases q x with
    | true => rfl
    | false =>
      exact find?_congrPred p q xs (fun y hy => h y (List.mem_cons_of_mem x hy))

/-- Away from the inherited names, the two exclusion checks agree. -/
theorem isComplexKanjiExcludedJS_agree (ch : String)
    (h : ch ∉ objectProtoMemberNames) :
    isComplexKanjiExcludedJS ch = isComplexKanjiExcluded ch := by
  unfold isComplexKanjiExcludedJS isComplexKanjiExcluded
  have hc : objectProtoMemberNames.contains ch = false := by
    by_contra hc
    rw [Bool.not_eq_false] at hc
    exact h (List.mem_of_elem_eq_true hc)
  rw [hc, Bool.or_false]

/-- A node map none of whose stored nodes has a character equal to an
inherited `Object.prototype` name. -/
def CharCleanMap (m : NodeMap) : Prop :=
  ∀ p ∈ m, p.2.character ∉ objectProtoMemberNames

/-- Away from the inherited names, the two generic searches agree. -/
theorem genericKeywordSearchJS_agree (kanjiNodes primitiveNodes : NodeMap)
    (kw : String) (hkw : kw ∉ objectProtoMemberNames)
    (hK : CharCleanMap kanjiNodes) :
    genericKeywordSearchJS kanjiNodes primitiveNodes kw =
      genericKeywordSearch kanjiNodes primitiveNodes kw := by
  unfold genericKeywordSearchJS genericKeywordSearch
  have hfind : (mapValues kanjiNodes).find?
      (fun n => n.keyword = kw && !isComplexKanjiExcludedJS n.character) =
      (mapValues kanjiNodes).find?
      (fun n => n.keyword = kw && !isComplexKanjiExcluded n.character) := by
    refine find?_congrPred _ _ _ ?_
    intro n hn
    have hn' : n ∈ kanjiNodes.map Prod.snd := hn
    obtain ⟨p, hp, rfl⟩ := List.mem_map.mp hn'
    rw [isComplexKanjiExcludedJS_agree _ (hK p hp)]
  rw [hfind, isComplexKanjiExcludedJS_agree kw hkw]

/-- Away from the inherited names, the JS property read is the own-key
lookup. -/
theorem resolveComponentKeywordJS_agree (kw : String)
    (h : kw ∉ objectProtoMemberNames) :
    resolveComponentKeywordJS kw =
      (match resolveComponentKeyword kw with
       | some s => JSPropRead.ownStr s
       | none => JSPropRead.notPresent) := by
  unfold resolveComponentKeywordJS resolveComponentKeyword
  cases hf : KEYWORD_TO_CHARACTER_MAPPINGS.find? (fun p => p.1 = kw) with
  | some p => simp [hf]
  | none =>
    have hc : objectProtoMemberNames.contains kw = false := by
      by_contra hc
      rw [Bool.not_eq_false] at hc
      exact h (List.mem_of_elem_eq_true hc)
    simp [hf, hc]
    exact h

/-- Away from the inherited names, the faithful resolver returns (without
throwing) exactly what the total resolver returns. -/
theorem resolveMnemonicKeywordE_agree (kanjiNodes primitiveNodes : NodeMap)
    (kw : String) (hkw : kw ∉ objectProtoMemberNames)
    (hK : CharCleanMap kanjiNodes) :
    resolveMnemonicKeywordE kanjiNodes primitiveNodes kw =
      .ok (resolveMnemonicKeyword kanjiNodes primitiveNodes kw) := by
  unfold resolveMnemonicKeywordE resolveMnemonicKeyword
  rw [resolveComponentKeywordJS_agree kw hkw]
  cases hc : resolveComponentKeyword kw with
  | some mapped =>
    simp only []
    cases hk : mapGet kanjiNodes (generateNodeId "kanji" mapped) with
    | some n => simp [hk]
    | none =>
      cases hp : mapGet primitiveNodes (generateNodeId "primitive" mapped) with
      | some n => simp [hk, hp]
      | none =>
        simp [hk, hp,
          genericKeywordSearchJS_agree kanjiNodes primitiveNodes kw hkw hK]
  | none =>
    simp [genericKeywordSearchJS_agree kanjiNodes primitiveNodes kw hkw hK]

/-- Away from the inherited names, one faithful keyword step succeeds with
the total step's value. -/
theorem processKeywordE_agree (kanjiNodes primitiveNodes : NodeMap)
    (kanjiId : String) (acc : List GraphEdge × List String × List String)
    (kw : String) (hkw : kw ∉ objectProtoMemberNames)
    (hK : CharCleanMap kanjiNodes) :
    processKeywordE kanjiNodes primitiveNodes kanjiId acc kw =
      .ok (processKeyword kanjiNodes primitiveNodes kanjiId acc kw) := by
  obtain ⟨e, c, m⟩ := acc
  unfold processKeywordE processKeyword
  rw [resolveMnemonicKeywordE_agree kanjiNodes primitiveNodes kw hkw hK]
  cases resolveMnemonicKeyword kanjiNodes primitiveNodes kw with
  | some n =>
    simp only []
    exact (apply_ite Except.ok _ _ _).symm
  | none => rfl

/-- Away from the inherited names, the faithful keyword loop succeeds with
the total fold's value. -/
theorem foldKeywordsE_agree (kanjiNodes primitiveNodes : NodeMap)
    (kanjiId : String) :
    ∀ (kws : List String) (acc : List GraphEdge × List String × List String),
      (∀ kw ∈ kws, kw ∉ objectProtoMemberNames) →
      CharCleanMap kanjiNodes →
      foldKeywordsE kanjiNodes primitiveNodes kanjiId kws acc =
        .ok (kws.foldl (processKeyword kanjiNodes primitiveNodes kanjiId) acc)
  | [], _, _, _ => rfl
  | kw :: rest, acc, h, hK => by
    simp only [foldKeywordsE, List.foldl_cons]
    rw [processKeywordE_agree kanjiNodes primitiveNodes kanjiId acc kw
      (h kw (List.mem_cons_self kw rest)) hK]
    exact foldKeywordsE_agree kanjiNodes primitiveNodes kanjiId rest _
      (fun x hx => h x (List.mem_cons_of_mem kw hx)) hK

/-- Away from the inherited names, one faithful record step succeeds with
the total step's value. -/
theorem processKanjiRecordE_agree (kanjiNodes primitiveNodes : NodeMap)
    (acc : List GraphEdge × List String) (k : KanjiData)
    (htok : ∀ tok ∈ parseComponents k.components,
      tok ∉ objectProtoMemberNames)
    (hK : CharCleanMap kanjiNodes) :
    processKanjiRecordE kanjiNodes primitiveNodes acc k =
      .ok (processKanjiRecord kanjiNodes primitiveNodes acc k) := by
  cases hg : mapGet kanjiNodes (generateNodeId "kanji" k.kanji) with
  | none =>
    rw [processKanjiRecord_eq_of_none kanjiNodes primitiveNodes acc k hg]
    unfold processKanjiRecordE
    simp only [hg]
  | some v =>
    rw [processKanjiRecord_eq_of_some kanjiNodes primitiveNodes acc k v hg]
    unfold processKanjiRecordE
    simp only [hg]
    rw [foldKeywordsE_agree kanjiNodes primitiveNodes _
      (parseComponents k.components) (acc.1, [], acc.2) htok hK]

/-- Away from the inherited names, the faithful record loop succeeds with
the total fold's value. -/
theorem foldKanjiRecordsE_agree (kanjiNodes primitiveNodes : NodeMap) :
    ∀ (kanjiData : List KanjiData) (acc : List GraphEdge × List String),
      (∀ r ∈ kanjiData, ∀ tok ∈ parseComponents r.components,
        tok ∉ objectProtoMemberNames) →
      CharCleanMap kanjiNodes →
      foldKanjiRecordsE kanjiNodes primitiveNodes kanjiData acc =
        .ok (kanjiData.foldl
          (processKanjiRecord kanjiNodes primitiveNodes) acc)
  | [], _, _, _ => rfl
  | k :: rest, acc, h, hK => by
    simp only [foldKanjiRecordsE, List.foldl_cons]
    rw [processKanjiRecordE_agree kanjiNodes primitiveNodes acc k
      (h k (List.mem_cons_self k rest)) hK]
    exact foldKanjiRecordsE_agree kanjiNodes primitiveNodes rest _
      (fun r hr => h r (List.mem_cons_of_mem k hr)) hK

/-- A member of `mapSet m k v` is an old member or the inserted pair. -/
theorem mapSet_mem {m : NodeMap} {k : String} {v : GraphNode} :
    ∀ p ∈ mapSet m k v, p ∈ m ∨ p = (k, v) := by
  intro p hp
  unfold mapSet at hp
  by_cases hany : m.any (fun q => q.1 = k)
  · rw [if_pos hany] at hp
    obtain ⟨q, hq, hqe⟩ := List.mem_map.mp hp
    by_cases hqk : q.1 = k
    · rw [if_pos hqk] at hqe
      exact Or.inr hqe.symm
    · rw [if_neg hqk] at hqe
      exact Or.inl (hqe ▸ hq)
  · rw [if_neg hany] at hp
    rcases List.mem_append.mp hp with h | h
    · exact Or.inl h
    · simp at h
      exact Or.inr h

/-- Every value stored in the kanji node map comes from some input
record. -/
theorem buildKanjiNodeMap_values (kanjiData : List KanjiData)
    (jl : String → Option JLPTLevel) :
    ∀ p ∈ buildKanjiNodeMap kanjiData jl,
      ∃ r ∈ kanjiData, p.2 = createKanjiNode r jl := by
  unfold buildKanjiNodeMap
  suffices haux : ∀ (kd : List KanjiData) (m0 : NodeMap) (p : String × GraphNode),
      p ∈ kd.foldl (fun m k =>
        let node := createKanjiNode k jl
        mapSet m node.id node) m0 →
      p ∈ m0 ∨ ∃ r ∈ kd, p.2 = createKanjiNode r jl by
    intro p hp
    rcases haux kanjiData [] p hp with h | h
    · cases h
    · exact h
  intro kd
  induction kd with
  | nil => intro m0 p hp; exact Or.inl hp
  | cons k rest ih =>
    intro m0 p hp
    rw [List.foldl_cons] at hp
    rcases ih _ p hp with h | h
    · rcases mapSet_mem p h with h' | h'
      · exact Or.inl h'
      · refine Or.inr ⟨k, List.mem_cons_self k rest, ?_⟩
        rw [h']
    · obtain ⟨r, hr, he⟩ := h
      exact Or.inr ⟨r, List.mem_cons_of_mem k hr, he⟩

/-- If no record's character is an inherited name, the kanji node map is
character-clean. -/
theorem buildKanjiNodeMap_charClean (kanjiData : List KanjiData)
    (jl : String → Option JLPTLevel)
    (h : ∀ r ∈ kanjiData, r.kanji ∉ objectProtoMemberNames) :
    CharCleanMap (buildKanjiNodeMap kanjiData jl) := by
  intro p hp
  obtain ⟨r, hr, hpe⟩ := buildKanjiNodeMap_values kanjiData jl p hp
  rw [hpe]
  exact h r hr

/-- Away from the inherited names, `buildGraphE` does not throw and
returns exactly the graph of the total model. -/
theorem buildGraphE_agree (kanjiData : List KanjiData)
    (primitivesData : List PrimitiveData) (jl : String → Option JLPTLevel)
    (htok : ∀ r ∈ kanjiData, ∀ tok ∈ parseComponents r.components,
      tok ∉ objectProtoMemberNames)
    (hchar : ∀ r ∈ kanjiData, r.kanji ∉ objectProtoMemberNames) :
    buildGraphE kanjiData primitivesData jl =
      .ok (buildGraph kanjiData primitivesData jl) := by
  have hagree := foldKanjiRecordsE_agree (buildKanjiNodeMap kanjiData jl)
    (buildPrimitiveNodeMap primitivesData) kanjiData ([], []) htok
    (buildKanjiNodeMap_charClean kanjiData jl hchar)
  simp only [buildGraphE, buildGraph, createMnemonicEdgesE,
    createMnemonicEdges, hagree]

/-- A keyword that reads an inherited member aborts the keyword loop with
the thrown error. -/
theorem foldKeywordsE_error (kanjiNodes primitiveNodes : NodeMap)
    (kanjiId : String) :
    ∀ (kws : List String) (acc : List GraphEdge × List String × List String)
      (tok : String), tok ∈ kws →
      resolveComponentKeywordJS tok = .protoMember →
      foldKeywordsE kanjiNodes primitiveNodes kanjiId kws acc = .error ()
  | kw :: rest, acc, tok, hmem, hproto => by
    simp only [foldKeywordsE]
    rcases List.mem_cons.mp hmem with rfl | hmem'
    · have hstep : processKeywordE kanjiNodes primitiveNodes kanjiId acc tok =
          .error () := by
        obtain ⟨e, c, m⟩ := acc
        unfold processKeywordE resolveMnemonicKeywordE
        rw [hproto]
      rw [hstep]
    · cases hstep : processKeywordE kanjiNodes primitiveNodes kanjiId acc kw with
      | error e =>
        cases e
        rfl
      | ok acc' =>
        exact foldKeywordsE_error kanjiNodes primitiveNodes kanjiId rest acc'
          tok hmem' hproto

/-- The record loop splits over list append, propagating errors. -/
theorem foldKanjiRecordsE_append (kanjiNodes primitiveNodes : NodeMap) :
    ∀ (l1 l2 : List KanjiData) (acc : List GraphEdge × List String),
      foldKanjiRecordsE kanjiNodes primitiveNodes (l1 ++ l2) acc =
        match foldKanjiRecordsE kanjiNodes primitiveNodes l1 acc with
        | .error e => .error e
        | .ok a => foldKanjiRecordsE kanjiNodes primitiveNodes l2 a
  | [], _, _ => rfl
  | k :: rest, l2, acc => by
    simp only [List.cons_append, foldKanjiRecordsE]
    cases h : processKanjiRecordE kanjiNodes primitiveNodes acc k with
    | error e => rfl
    | ok acc' => exact foldKanjiRecordsE_append kanjiNodes primitiveNodes rest l2 acc'

/-- A record (with its kanji node present) containing a token that reads
an inherited member makes the whole edge construction throw. -/
theorem createMnemonicEdgesE_error (kanjiNodes primitiveNodes : NodeMap)
    (kanjiData : List KanjiData) (r : KanjiData) (tok : String)
    (hr : r ∈ kanjiData)
    (hsome : (mapGet kanjiNodes (generateNodeId "kanji" r.kanji)).isSome)
    (htok : tok ∈ parseComponents r.components)
    (hproto : resolveComponentKeywordJS tok = .protoMember) :
    createMnemonicEdgesE kanjiNodes primitiveNodes kanjiData = .error () := by
  obtain ⟨l1, l2, rfl⟩ := List.append_of_mem hr
  unfold createMnemonicEdgesE
  rw [foldKanjiRecordsE_append]
  cases h1 : foldKanjiRecordsE kanjiNodes primitiveNodes l1 ([], []) with
  | error e =>
    cases e
    rfl
  | ok acc1 =>
    obtain ⟨v, hv⟩ := Option.isSome_iff_exists.mp hsome
    have hrec : processKanjiRecordE kanjiNodes primitiveNodes acc1 r =
        .error () := by
      unfold processKanjiRecordE
      simp only [hv]
      rw [foldKeywordsE_error kanjiNodes primitiveNodes _
        (parseComponents r.components) (acc1.1, [], acc1.2) tok htok hproto]
    show foldKanjiRecordsE kanjiNodes primitiveNodes (r :: l2) acc1 = .error ()
    simp only [foldKanjiRecordsE, hrec]

/-- The throw surfaces from `buildGraphE` as an `RTKDataError` carrying
the input record counts. -/
theorem buildGraphE_error (kanjiData : List KanjiData)
    (primitivesData : List PrimitiveData) (jl : String → Option JLPTLevel)
    (r : KanjiData) (tok : String) (hr : r ∈ kanjiData)
    (hsome : (mapGet (buildKanjiNodeMap kanjiData jl)
      (generateNodeId "kanji" r.kanji)).isSome)
    (htok : tok ∈ parseComponents r.components)
    (hproto : resolveComponentKeywordJS tok = .protoMember) :
    buildGraphE kanjiData primitivesData jl =
      .error ⟨kanjiData.length, primitivesData.length⟩ := by
  have herr := createMnemonicEdgesE_error (buildKanjiNodeMap kanjiData jl)
    (buildPrimitiveNodeMap primitivesData) kanjiData r tok hr hsome htok hproto
  simp only [buildGraphE, herr]

/-- Fixture: kanji record whose mnemonic token "zzz" resolves to nothing. -/
def missZRecord : KanjiData := ⟨"日", none, some 1, "", "daylight", "zzz", "", ""⟩

/-- Fixture: identical record except the unresolved token is "yyy". -/
def missYRecord : KanjiData := ⟨"日", none, some 1, "", "daylight", "yyy", "", ""⟩

/-- Fixture: kanji record whose mnemonic token is the inherited property
name "constructor". -/
def ctorRecord : KanjiData :=
  ⟨"日", none, some 1, "", "daylight", "constructor", "", ""⟩

/-- **C6, counterexample.** Two failures. (1) `buildGraph` CAN throw on an
unresolved mnemonic keyword: the token "constructor" reads the inherited
`Object.prototype.constructor`, which is truthy, so `generateNodeId` is
called on a non-string and the TypeError is rethrown as an `RTKDataError`
— the token is never recorded. (2) For ordinary unresolved tokens the
missing-mnemonics set is NOT made available in the build output: inputs
whose unresolved tokens differ ("zzz" vs "yyy") produce identical build
outputs, while the internal missing sets differ. -/
theorem claim_C6_counterexample :
    (buildGraphE [ctorRecord] [] (fun _ => none) = .error ⟨1, 0⟩) ∧
    (buildGraphE [missZRecord] [] (fun _ => none) =
      buildGraphE [missYRecord] [] (fun _ => none)) ∧
    ((createMnemonicEdgesE (buildKanjiNodeMap [missZRecord] (fun _ => none))
        (buildPrimitiveNodeMap []) [missZRecord]).map Prod.snd =
      .ok ["zzz"]) ∧
    ((createMnemonicEdgesE (buildKanjiNodeMap [missYRecord] (fun _ => none))
        (buildPrimitiveNodeMap []) [missYRecord]).map Prod.snd =
      .ok ["yyy"]) := by
  refine ⟨by decide, by decide, by decide, by decide⟩

/-- **C6 (amended).** `buildGraph` never throws on an unresolved mnemonic
keyword UNLESS the token names an inherited `Object.prototype` member
("constructor", "toString", "__proto__", …): away from those names the
faithful model returns exactly the total model's graph, and within it a
token of a present record that resolves to no node is recorded in the
internal missing-mnemonics set and contributes no edge — every emitted
edge is justified by a keyword that did resolve. That set is only logged
by the source (`console.warn`) and is not part of the returned graph or
its metadata. A prototype-member-named token, by contrast, makes
`generateNodeId` throw and `buildGraph` rethrow an `RTKDataError` carrying
the record counts, without recording the token. -/
theorem claim_C6 :
    (∀ (kanjiData : List KanjiData) (primitivesData : List PrimitiveData)
        (jl : String → Option JLPTLevel),
      (∀ r ∈ kanjiData, ∀ tok ∈ parseComponents r.components,
        tok ∉ objectProtoMemberNames) →
      (∀ r ∈ kanjiData, r.kanji ∉ objectProtoMemberNames) →
      buildGraphE kanjiData primitivesData jl =
        .ok (buildGraph kanjiData primitivesData jl)) ∧
    (∀ (kanjiNodes primitiveNodes : NodeMap) (kanjiData : List KanjiData)
        (r : KanjiData) (tok : String),
      r ∈ kanjiData →
      (mapGet kanjiNodes (generateNodeId "kanji" r.kanji)).isSome →
      tok ∈ parseComponents r.components →
      resolveMnemonicKeyword kanjiNodes primitiveNodes tok = none →
      tok ∈ (createMnemonicEdges kanjiNodes primitiveNodes kanjiData).2) ∧
    (∀ (kanjiNodes primitiveNodes : NodeMap) (kanjiData : List KanjiData)
        (e : GraphEdge),
      e ∈ (createMnemonicEdges kanjiNodes primitiveNodes kanjiData).1 →
      EdgeResolved kanjiNodes primitiveNodes e) ∧
    (∀ (kanjiData : List KanjiData) (primitivesData : List PrimitiveData)
        (jl : String → Option JLPTLevel) (r : KanjiData) (tok : String),
      r ∈ kanjiData →
      (mapGet (buildKanjiNodeMap kanjiData jl)
        (generateNodeId "kanji" r.kanji)).isSome →
      tok ∈ parseComponents r.components →
      resolveComponentKeywordJS tok = .protoMember →
      buildGraphE kanjiData primitivesData jl =
        .error ⟨kanjiData.length, primitivesData.length⟩) := by
  refine ⟨buildGraphE_agree, createMnemonicEdges_missing_rec, ?_,
    buildGraphE_error⟩
  intro kanjiNodes primitiveNodes kanjiData e he
  exact createMnemonicEdges_resolved kanjiNodes primitiveNodes kanjiData
    ([], []) (by intro e' he'; cases he') e he

/-- **C6, witness**: the no-throw agreement on the clean fixture, the
recording of its unresolved token "zzz", and the thrown `RTKDataError` on
the "constructor" fixture. -/
theorem claim_C6_witness :
    (buildGraphE [missZRecord] [] (fun _ => none) =
      .ok (buildGraph [missZRecord] [] (fun _ => none))) ∧
    ("zzz" ∈ (createMnemonicEdges
      (buildKanjiNodeMap [missZRecord] (fun _ => none))
      (buildPrimitiveNodeMap []) [missZRecord]).2) ∧
    (buildGraphE [ctorRecord] [] (fun _ => none) = .error ⟨1, 0⟩) :=
  ⟨claim_C6.1 [missZRecord] [] (fun _ => none) (by decide) (by decide),
   claim_C6.2.1 (buildKanjiNodeMap [missZRecord] (fun _ => none))
     (buildPrimitiveNodeMap []) [missZRecord] missZRecord "zzz"
     (by decide) (by decide) (by decide) (by decide),
   claim_C6.2.2.2 [ctorRecord] [] (fun _ => none) ctorRecord "constructor"
     (by decide) (by decide) (by decide) (by decide)⟩

/-! ### Claim C2 — termination, depth bound, cycle handling -/

/-- The children loop of `buildTreeGo`, parametric in the recursive step
(structural in the edge list). -/
def buildChildrenGo (step : String → BuildState → Option TreeNode × BuildState) :
    List GraphEdge → BuildState → List TreeNode × BuildState
  | [], st => ([], st)
  | e :: rest, st =>
    if e.type = EdgeKind.mnemonic_uses then
      let (child, st1) := step e.target st
      let (siblings, st2) := buildChildrenGo step rest st1
      ((match child with | some c => [c] | none => []) ++ siblings, st2)
    else buildChildrenGo step rest st

/-- A structurally recursive twin of `buildTreeNode`: the remaining depth
budget `fuel = maxDepth + 1 - depth` replaces the `depth > maxDepth` guard
(`fuel = 0` iff `depth > maxDepth`), everything else is identical. Proved
equal to `buildTreeNode` below; being structural, it also computes in the
kernel. -/
def buildTreeGo (g : RTKGraph) (m : Nat) :
    Nat → String → Nat → BuildState → Option TreeNode × BuildState
  | 0, _, _, st => (none, st)
  | fuel + 1, nodeId, depth, st =>
    if st.visited.contains nodeId then
      (none, { st with circularReferences := st.circularReferences ++ [nodeId] })
    else
      match graphNodeMapGet g nodeId with
      | none => (none, st)
      | some graphNode =>
        let st1 : BuildState :=
          { st with visited := st.visited ++ [nodeId]
                    allTreeNodes := st.allTreeNodes ++ [(nodeId, depth)] }
        let (children, st2) :=
          buildChildrenGo (fun t s => buildTreeGo g m fuel t (depth + 1) s)
            (edgesFrom g nodeId) st1
        let node : TreeNode :=
          .mk nodeId graphNode (depth : Int) (decide (depth < 2)) false
            (sortNodesByJLPTLevel children) none none
        (some node, { st2 with visited := st2.visited.erase nodeId })

/-- `buildTreeNode` agrees with its fuel twin at the synchronized fuel
`maxDepth + 1 - depth`: in particular the recursion always terminates and
never descends past `maxDepth` levels. -/
theorem buildTreeNode_eq_go (g : RTKGraph) (m : Nat) :
    ∀ (nodeId : String) (depth : Nat) (st : BuildState),
      buildTreeNode g m nodeId depth st =
        buildTreeGo g m (m + 1 - depth) nodeId depth st := by
  refine buildTreeNode.induct g m
    (fun nodeId depth st =>
      buildTreeNode g m nodeId depth st =
        buildTreeGo g m (m + 1 - depth) nodeId depth st)
    (fun edges childDepth st =>
      buildChildNodes g m edges childDepth st =
        buildChildrenGo (fun t s => buildTreeGo g m (m + 1 - childDepth) t
          childDepth s) edges st)
    ?_ ?_ ?_ ?_ ?_ ?_ ?_
  · intro nodeId depth st h
    have hz : m + 1 - depth = 0 := by omega
    rw [buildTreeNode, dif_pos h, hz]
    rfl
  · intro nodeId depth st h hc
    obtain ⟨f, hf⟩ : ∃ f, m + 1 - depth = f + 1 := ⟨m - depth, by omega⟩
    rw [buildTreeNode, dif_neg h, if_pos hc, hf, buildTreeGo, if_pos hc]
  · intro nodeId depth st h hc hg
    obtain ⟨f, hf⟩ : ∃ f, m + 1 - depth = f + 1 := ⟨m - depth, by omega⟩
    rw [buildTreeNode, dif_neg h, if_neg hc, hf, buildTreeGo,
      if_neg hc]
    simp only [hg]
  · intro nodeId depth st h hc v hg st1 children st2 heq ih
    obtain ⟨f, hf⟩ : ∃ f, m + 1 - depth = f + 1 := ⟨m - depth, by omega⟩
    have hff : m + 1 - (depth + 1) = f := by omega
    rw [buildTreeNode, dif_neg h, if_neg hc, hf, buildTreeGo,
      if_neg hc]
    simp only [hg]
    rw [heq] at ih ⊢
    rw [hff] at ih
    rw [← ih]
  · intro childDepth st
    rw [buildChildNodes]
    rfl
  · intro childDepth st e rest hety child st1 htree children st2 hch ih1 ih2
    rw [buildChildNodes, buildChildrenGo]
    rw [if_pos hety, if_pos hety]
    rw [htree] at ih1 ⊢
    rw [← ih1]
    dsimp only
    rw [ih2]
  · intro childDepth st e rest hety ih
    rw [buildChildNodes, buildChildrenGo, if_neg hety, if_neg hety]
    exact ih

/-- Erasing a freshly appended element restores the original list (the
`visited.add` / `visited.delete` bracket of the source). -/
theorem erase_append_singleton (l : List String) (x : String) (h : x ∉ l) :
    (l ++ [x]).erase x = l := by
  induction l with
  | nil => simp
  | cons y ys ih =>
    have hxy : x ≠ y := fun hxy => h (hxy ▸ List.mem_cons_self y ys)
    have hx : x ∉ ys := fun hm => h (List.mem_cons_of_mem y hm)
    rw [List.cons_append, List.erase_cons]
    rw [if_neg (by simpa using hxy.symm)]
    rw [ih hx]

/-- The children loop restores `visited` whenever the step does. -/
theorem buildChildrenGo_visited
    (step : String → BuildState → Option TreeNode × BuildState)
    (hstep : ∀ t s, ((step t s).2).visited = s.visited) :
    ∀ (edges : List GraphEdge) (st : BuildState),
      ((buildChildrenGo step edges st).2).visited = st.visited
  | [], st => rfl
  | e :: rest, st => by
    rw [buildChildrenGo]
    by_cases hety : e.type = EdgeKind.mnemonic_uses
    · rw [if_pos hety]
      rcases hp : step e.target st with ⟨c, s1⟩
      rcases hq : buildChildrenGo step rest s1 with ⟨cs, s2⟩
      have h1 : s1.visited = st.visited := by
        have := hstep e.target st
        rw [hp] at this
        exact this
      have h2 : s2.visited = s1.visited := by
        have := buildChildrenGo_visited step hstep rest s1
        rw [hq] at this
        exact this
      simp [hq, h1, h2]
    · rw [if_neg hety]
      exact buildChildrenGo_visited step hstep rest st

/-- `buildTreeGo` restores the path-scoped `visited` set: the node id is
removed again on return, so sibling branches may legitimately revisit. -/
theorem buildTreeGo_visited (g : RTKGraph) (m : Nat) :
    ∀ (fuel : Nat) (nodeId : String) (depth : Nat) (st : BuildState),
      ((buildTreeGo g m fuel nodeId depth st).2).visited = st.visited
  | 0, _, _, _ => rfl
  | fuel + 1, nodeId, depth, st => by
    rw [buildTreeGo]
    by_cases hc : st.visited.contains nodeId
    · rw [if_pos hc]
    · rw [if_neg hc]
      cases hg : graphNodeMapGet g nodeId with
      | none => rfl
      | some v =>
        simp only []
        rcases hch : buildChildrenGo
          (fun t s => buildTreeGo g m fuel t (depth + 1) s)
          (edgesFrom g nodeId)
          { st with visited := st.visited ++ [nodeId]
                    allTreeNodes := st.allTreeNodes ++ [(nodeId, depth)] }
          with ⟨cs, s2⟩
        have h2 : s2.visited = st.visited ++ [nodeId] := by
          have := buildChildrenGo_visited
            (fun t s => buildTreeGo g m fuel t (depth + 1) s)
            (fun t s => buildTreeGo_visited g m fuel t (depth + 1) s)
            (edgesFrom g nodeId)
            { st with visited := st.visited ++ [nodeId]
                      allTreeNodes := st.allTreeNodes ++ [(nodeId, depth)] }
          rw [hch] at this
          exact this
        have hnm : nodeId ∉ st.visited :=
          fun hm => hc (List.elem_eq_true_of_mem hm)
        simp [hch, h2, erase_append_singleton st.visited nodeId hnm]

/-- The children loop only appends to `allTreeNodes`, and the appended
entries satisfy whatever the step guarantees. -/
theorem buildChildrenGo_allNodes (P : String × Nat → Prop)
    (step : String → BuildState → Option TreeNode × BuildState)
    (hstep : ∀ t s, ∃ added, ((step t s).2).allTreeNodes =
      s.allTreeNodes ++ added ∧ ∀ q ∈ added, P q) :
    ∀ (edges : List GraphEdge) (st : BuildState),
      ∃ added, ((buildChildrenGo step edges st).2).allTreeNodes =
        st.allTreeNodes ++ added ∧ ∀ q ∈ added, P q
  | [], st => ⟨[], by simp [buildChildrenGo], by intro q hq; cases hq⟩
  | e :: rest, st => by
    rw [buildChildrenGo]
    by_cases hety : e.type = EdgeKind.mnemonic_uses
    · rw [if_pos hety]
      rcases hp : step e.target st with ⟨c, s1⟩
      rcases hq : buildChildrenGo step rest s1 with ⟨cs, s2⟩
      obtain ⟨a1, ha1, hp1⟩ := hstep e.target st
      rw [hp] at ha1
      obtain ⟨a2, ha2, hp2⟩ := buildChildrenGo_allNodes P step hstep rest s1
      rw [hq] at ha2
      have ha1' : s1.allTreeNodes = st.allTreeNodes ++ a1 := ha1
      have ha2' : s2.allTreeNodes = s1.allTreeNodes ++ a2 := ha2
      refine ⟨a1 ++ a2, ?_, ?_⟩
      · simp [hq, ha2', ha1', List.append_assoc]
      · intro q hq'
        rcases List.mem_append.mp hq' with h | h
        · exact hp1 q h
        · exact hp2 q h
    · rw [if_neg hety]
      exact buildChildrenGo_allNodes P step hstep rest st

/-- `buildTreeGo` only appends to `allTreeNodes`, and — when the fuel is
in sync with the depth budget — every appended node was created at depth
at most `maxDepth`. -/
theorem buildTreeGo_allNodes (g : RTKGraph) (m : Nat) :
    ∀ (fuel : Nat) (nodeId : String) (depth : Nat) (st : BuildState),
      fuel ≤ m + 1 - depth →
      ∃ added, ((buildTreeGo g m fuel nodeId depth st).2).allTreeNodes =
        st.allTreeNodes ++ added ∧ ∀ q ∈ added, q.2 ≤ m
  | 0, _, _, st, _ => ⟨[], by simp [buildTreeGo], by intro q hq; cases hq⟩
  | fuel + 1, nodeId, depth, st, hb => by
    rw [buildTreeGo]
    by_cases hc : st.visited.contains nodeId
    · rw [if_pos hc]
      exact ⟨[], by simp, by intro q hq; cases hq⟩
    · rw [if_neg hc]
      cases hg : graphNodeMapGet g nodeId with
      | none => exact ⟨[], by simp, by intro q hq; cases hq⟩
      | some v =>
        simp only []
        rcases hch : buildChildrenGo
          (fun t s => buildTreeGo g m fuel t (depth + 1) s)
          (edgesFrom g nodeId)
          { st with visited := st.visited ++ [nodeId]
                    allTreeNodes := st.allTreeNodes ++ [(nodeId, depth)] }
          with ⟨cs, s2⟩
        obtain ⟨added, ha, hpa⟩ := buildChildrenGo_allNodes
          (fun q => q.2 ≤ m)
          (fun t s => buildTreeGo g m fuel t (depth + 1) s)
          (fun t s => buildTreeGo_allNodes g m fuel t (depth + 1) s (by omega))
          (edgesFrom g nodeId)
          { st with visited := st.visited ++ [nodeId]
                    allTreeNodes := st.allTreeNodes ++ [(nodeId, depth)] }
        rw [hch] at ha
        have ha' : s2.allTreeNodes =
            (st.allTreeNodes ++ [(nodeId, depth)]) ++ added := ha
        refine ⟨(nodeId, depth) :: added, ?_, ?_⟩
        · simp [hch, ha']
        · intro q hq'
          rcases List.mem_cons.mp hq' with rfl | h
          · show depth ≤ m
            omega
          · exact hpa q h

/-- Transported to the faithful model: `visited` is restored on return. -/
theorem buildTreeNode_visited (g : RTKGraph) (m : Nat) (nodeId : String)
    (depth : Nat) (st : BuildState) :
    ((buildTreeNode g m nodeId depth st).2).visited = st.visited := by
  rw [buildTreeNode_eq_go]
  exact buildTreeGo_visited g m (m + 1 - depth) nodeId depth st

/-- Transported to the faithful model: only appends to `allTreeNodes`, all
appended entries at depth at most `maxDepth`. -/
theorem buildTreeNode_allNodes (g : RTKGraph) (m : Nat) (nodeId : String)
    (depth : Nat) (st : BuildState) :
    ∃ added, ((buildTreeNode g m nodeId depth st).2).allTreeNodes =
      st.allTreeNodes ++ added ∧ ∀ q ∈ added, q.2 ≤ m := by
  rw [buildTreeNode_eq_go]
  exact buildTreeGo_allNodes g m (m + 1 - depth) nodeId depth st (by omega)

/-- A node id already on the current descent path (within the depth
budget) is recorded in `circularReferences` and nothing else changes. -/
theorem buildTreeNode_on_path (g : RTKGraph) (m : Nat) (nodeId : String)
    (depth : Nat) (st : BuildState) (hd : depth ≤ m)
    (hv : st.visited.contains nodeId = true) :
    buildTreeNode g m nodeId depth st =
      (none, { st with circularReferences :=
        st.circularReferences ++ [nodeId] }) := by
  rw [buildTreeNode]
  rw [dif_neg (by omega : ¬ depth > m)]
  rw [if_pos hv]

/-- A node id NOT on the current descent path, within the depth budget and
present in the graph, yields a fresh created node. -/
theorem buildTreeNode_fresh (g : RTKGraph) (m : Nat) (nodeId : String)
    (depth : Nat) (st : BuildState) (v : GraphNode) (hd : depth ≤ m)
    (hv : st.visited.contains nodeId = false)
    (hg : graphNodeMapGet g nodeId = some v) :
    ((buildTreeNode g m nodeId depth st).1).isSome = true ∧
    ∃ added, ((buildTreeNode g m nodeId depth st).2).allTreeNodes =
      st.allTreeNodes ++ (nodeId, depth) :: added := by
  rw [buildTreeNode_eq_go]
  obtain ⟨f, hf⟩ : ∃ f, m + 1 - depth = f + 1 := ⟨m - depth, by omega⟩
  rw [hf, buildTreeGo]
  rw [if_neg (by rw [hv]; exact Bool.false_ne_true)]
  simp only [hg]
  rcases hch : buildChildrenGo (fun t s => buildTreeGo g m f t (depth + 1) s)
    (edgesFrom g nodeId)
    { st with visited := st.visited ++ [nodeId]
              allTreeNodes := st.allTreeNodes ++ [(nodeId, depth)] }
    with ⟨cs, s2⟩
  obtain ⟨added, ha, _⟩ := buildChildrenGo_allNodes (fun q => q.2 ≤ m)
    (fun t s => buildTreeGo g m f t (depth + 1) s)
    (fun t s => buildTreeGo_allNodes g m f t (depth + 1) s (by omega))
    (edgesFrom g nodeId)
    { st with visited := st.visited ++ [nodeId]
              allTreeNodes := st.allTreeNodes ++ [(nodeId, depth)] }
  rw [hch] at ha
  have ha' : s2.allTreeNodes =
      (st.allTreeNodes ++ [(nodeId, depth)]) ++ added := ha
  constructor
  · simp [hch]
  · exact ⟨added, by simp [hch, ha']⟩

/-- Fixture: a diamond-shaped mnemonic graph — `r` uses `b` and `c`, each
of which uses `d`, so `d` is legitimately reached twice along sibling
branches without a cycle. -/
def diamondGraph : RTKGraph :=
  { nodes := [sampleKanjiNode "r", sampleKanjiNode "b", sampleKanjiNode "c",
      sampleKanjiNode "d"]
    edges := [usesEdge "kanji_r" "kanji_b", usedInEdge "kanji_b" "kanji_r",
      usesEdge "kanji_r" "kanji_c", usedInEdge "kanji_c" "kanji_r",
      usesEdge "kanji_b" "kanji_d", usedInEdge "kanji_d" "kanji_b",
      usesEdge "kanji_c" "kanji_d", usedInEdge "kanji_d" "kanji_c"]
    metadata := ⟨4, 0, 8⟩ }

/-- Fixture: a kanji whose mnemonic references its own character. -/
def selfLoopGraph : RTKGraph :=
  { nodes := [sampleKanjiNode "s"]
    edges := [usesEdge "kanji_s" "kanji_s", usedInEdge "kanji_s" "kanji_s"]
    metadata := ⟨1, 0, 2⟩ }

/-- **C2.** `buildKanjiComponentTree` terminates on every graph — the
recursion is extensionally a structural recursion on the remaining depth
budget `maxDepth + 1 - depth` — and never creates a node at a depth
greater than `maxDepth`; a node id already on the current descent path is
recorded in `circularReferences` and no node is created for it, while an
id not on the path (the path-scoped `visited` set is restored on return)
produces a fresh node. Concretely: in the diamond graph `d` is built twice
via sibling branches with no circular-reference entry, and a direct
self-loop terminates with the id listed once in `circularReferences`. -/
theorem claim_C2 :
    (∀ (g : RTKGraph) (m : Nat) (nodeId : String) (depth : Nat)
        (st : BuildState),
      buildTreeNode g m nodeId depth st =
        buildTreeGo g m (m + 1 - depth) nodeId depth st) ∧
    (∀ (g : RTKGraph) (m : Nat) (nodeId : String) (depth : Nat)
        (st : BuildState),
      ∀ q ∈ ((buildTreeNode g m nodeId depth st).2).allTreeNodes,
        q ∈ st.allTreeNodes ∨ q.2 ≤ m) ∧
    (∀ (g : RTKGraph) (m : Nat) (nodeId : String) (depth : Nat)
        (st : BuildState), depth ≤ m → st.visited.contains nodeId = true →
      buildTreeNode g m nodeId depth st =
        (none, { st with circularReferences :=
          st.circularReferences ++ [nodeId] })) ∧
    (∀ (g : RTKGraph) (m : Nat) (nodeId : String) (depth : Nat)
        (st : BuildState),
      ((buildTreeNode g m nodeId depth st).2).visited = st.visited) ∧
    (∀ (g : RTKGraph) (m : Nat) (nodeId : String) (depth : Nat)
        (st : BuildState) (v : GraphNode), depth ≤ m →
      st.visited.contains nodeId = false →
      graphNodeMapGet g nodeId = some v →
      ((buildTreeNode g m nodeId depth st).1).isSome = true ∧
      ∃ added, ((buildTreeNode g m nodeId depth st).2).allTreeNodes =
        st.allTreeNodes ++ (nodeId, depth) :: added) ∧
    ((buildKanjiComponentTree diamondGraph "kanji_r" 5).map
        (fun r => (r.allNodes, r.circularReferences)) =
      .ok ([("kanji_r", 0), ("kanji_b", 1), ("kanji_d", 2), ("kanji_c", 1),
        ("kanji_d", 2)], [])) ∧
    ((buildKanjiComponentTree selfLoopGraph "kanji_s" 5).map
        (fun r => (r.allNodes, r.circularReferences)) =
      .ok ([("kanji_s", 0)], ["kanji_s"])) := by
  refine ⟨buildTreeNode_eq_go, ?_, buildTreeNode_on_path,
    buildTreeNode_visited, buildTreeNode_fresh, ?_, ?_⟩
  · intro g m nodeId depth st q hq
    obtain ⟨added, ha, hb⟩ := buildTreeNode_allNodes g m nodeId depth st
    rw [ha] at hq
    rcases List.mem_append.mp hq with h | h
    · exact Or.inl h
    · exact Or.inr (hb q h)
  · unfold buildKanjiComponentTree
    simp only [buildTreeNode_eq_go]
    decide
  · unfold buildKanjiComponentTree
    simp only [buildTreeNode_eq_go]
    decide

/-- **C2, witness**: the on-path rule and the fresh-node rule applied at a
concrete state over the diamond fixture. -/
theorem claim_C2_witness :
    (buildTreeNode diamondGraph 5 "kanji_r" 0 ⟨["kanji_r"], [], []⟩ =
      (none, ⟨["kanji_r"], ["kanji_r"], []⟩)) ∧
    (((buildTreeNode diamondGraph 5 "kanji_d" 1 ⟨[], [], []⟩).1).isSome = true ∧
      ∃ added, ((buildTreeNode diamondGraph 5 "kanji_d" 1
        ⟨[], [], []⟩).2).allTreeNodes = [] ++ ("kanji_d", 1) :: added) :=
  ⟨claim_C2.2.2.1 diamondGraph 5 "kanji_r" 0 ⟨["kanji_r"], [], []⟩
      (by decide) (by decide),
   claim_C2.2.2.2.2.1 diamondGraph 5 "kanji_d" 1 ⟨[], [], []⟩
      (sampleKanjiNode "d") (by decide) (by decide) (by decide)⟩
